import Mathlib

/-!
Verification model of the persistent language-server client in
`src/agents_ide/lsp.py` (class `LSPClient`): the wire codec used by
`LSPClient._send` and `LSPClient._read_loop`, the id-correlation state
manipulated by `LSPClient.request`, `LSPClient.stop` and the read loop,
and the high-level document operations (`open_file`, `get_definition`,
`get_diagnostics`, ...).

Modelling conventions:
* Python JSON-serializable values are the inductive `Json` below
  (`null`, booleans, arbitrary-precision integers, strings as `List Char`,
  arrays, objects as insertion-ordered key/value lists).  Floats are not
  modelled; the client never builds one.
* Byte streams are `List Nat` (each entry < 256); text is `List Char`.
* `json.dumps` is modelled with its defaults: `ensure_ascii=True`
  (non-ASCII characters become `\uXXXX` escapes, with surrogate pairs
  above U+FFFF) and separators `", "` / `": "`.
* `json.loads` is modelled by a fuel-indexed recursive-descent parser
  mirroring the stdlib scanner: the same literals, the same string
  escapes (including surrogate-pair recombination), the integer grammar
  `-?(0|[1-9][0-9]*)` with a trailing `.`/`e`/`E` turning the token into
  a float (floats are outside the model, so such inputs are rejected),
  and whitespace ` \t\n\r` skipped between tokens.  A parsed lone
  surrogate (which CPython would keep) is unrepresentable in `Char` and
  maps to `Char.ofNat`'s fallback; no encoder output contains one.
* `asyncio` futures are the explicit state machine `FutureState`;
  exceptions raised inside the read loop's `try` block are the
  `Option LoopErr` component threaded through `dispatchMessage` and
  `readLoop` (the source prints them to stderr and continues).
-/

/-! ### JSON values -/

mutual
inductive Json where
  | null : Json
  | bool (b : Bool) : Json
  | num (n : Int) : Json
  | str (s : List Char) : Json
  | arr (xs : JsonList) : Json
  | obj (kvs : JsonObj) : Json
deriving DecidableEq

inductive JsonList where
  | nil : JsonList
  | cons (hd : Json) (tl : JsonList) : JsonList
deriving DecidableEq

inductive JsonObj where
  | nil : JsonObj
  | cons (k : List Char) (v : Json) (tl : JsonObj) : JsonObj
deriving DecidableEq
end

def toObj : List (List Char × Json) → JsonObj
  | [] => .nil
  | (k, v) :: t => .cons k v (toObj t)

def jObj (l : List (List Char × Json)) : Json := .obj (toObj l)

def toJList : List Json → JsonList
  | [] => .nil
  | x :: t => .cons x (toJList t)

/-- Value of key `k`, later bindings shadowing earlier ones, matching the
dict `json.loads` builds (duplicate keys: last wins). -/
def objGetL : JsonObj → List Char → Option Json
  | .nil, _ => none
  | .cons k v t, key =>
    match objGetL t key with
    | some r => some r
    | none => if k = key then some v else none

def objGet (j : Json) (key : List Char) : Option Json :=
  match j with
  | .obj o => objGetL o key
  | _ => none

/-! ### Decimal digits: model of Python `str(n)` for `n : int` -/

def digitChar10 (d : Nat) : Char := Char.ofNat (48 + d)

def natCharsAux : Nat → Nat → List Char
  | 0, _ => []
  | fuel + 1, n =>
    if n < 10 then [digitChar10 n]
    else natCharsAux fuel (n / 10) ++ [digitChar10 (n % 10)]

def natChars (n : Nat) : List Char := natCharsAux (n + 1) n

def intChars (n : Int) : List Char :=
  if n < 0 then '-' :: natChars (-n).toNat else natChars n.toNat

/-! ### Lowercase hex, as emitted by `json.dumps`'s `\uXXXX` escapes -/

def hexDigitL (d : Nat) : Char :=
  if d < 10 then Char.ofNat (48 + d) else Char.ofNat (87 + d)

def hex4 (n : Nat) : List Char :=
  [hexDigitL (n / 4096), hexDigitL (n / 256 % 16), hexDigitL (n / 16 % 16), hexDigitL (n % 16)]

/-! ### `json.dumps` string escaping (`ensure_ascii=True`) -/

def escChar (c : Char) : List Char :=
  if c = '"' then [ '\\', '"' ]
  else if c = '\\' then [ '\\', '\\' ]
  else if c = '\x08' then [ '\\', 'b' ]
  else if c = '\x0c' then [ '\\', 'f' ]
  else if c = '\n' then [ '\\', 'n' ]
  else if c = '\r' then [ '\\', 'r' ]
  else if c = '\t' then [ '\\', 't' ]
  else if 0x20 ≤ c.toNat ∧ c.toNat ≤ 0x7e then [c]
  else if c.toNat < 0x10000 then '\\' :: 'u' :: hex4 c.toNat
  else
    '\\' :: 'u' :: hex4 (0xd800 + (c.toNat - 0x10000) / 0x400) ++
      '\\' :: 'u' :: hex4 (0xdc00 + (c.toNat - 0x10000) % 0x400)

def escAll : List Char → List Char
  | [] => []
  | c :: t => escChar c ++ escAll t

def escStr (s : List Char) : List Char := '"' :: escAll s ++ [ '"' ]

/-! ### `json.dumps` with default separators -/

mutual
def dumps : Json → List Char
  | .null => 'n' :: 'u' :: 'l' :: 'l' :: []
  | .bool true => 't' :: 'r' :: 'u' :: 'e' :: []
  | .bool false => 'f' :: 'a' :: 'l' :: 's' :: 'e' :: []
  | .num n => intChars n
  | .str s => escStr s
  | .arr .nil => '[' :: ']' :: []
  | .arr (.cons h t) => '[' :: (dumps h ++ dumpsElems t ++ [ ']' ])
  | .obj .nil => '\x7b' :: '\x7d' :: []
  | .obj (.cons k v t) =>
      '\x7b' :: (escStr k ++ ':' :: ' ' :: dumps v ++ dumpsMembers t ++ [ '\x7d' ])

def dumpsElems : JsonList → List Char
  | .nil => []
  | .cons h t => ',' :: ' ' :: dumps h ++ dumpsElems t

def dumpsMembers : JsonObj → List Char
  | .nil => []
  | .cons k v t => ',' :: ' ' :: escStr k ++ ':' :: ' ' :: dumps v ++ dumpsMembers t
end

/-! ### UTF-8 (`str.encode()` / `bytes.decode()`) -/

def utf8Char (c : Char) : List Nat :=
  let n := c.toNat
  if n < 0x80 then [n]
  else if n < 0x800 then [0xc0 + n / 64, 0x80 + n % 64]
  else if n < 0x10000 then [0xe0 + n / 4096, 0x80 + n / 64 % 64, 0x80 + n % 64]
  else [0xf0 + n / 262144, 0x80 + n / 4096 % 64, 0x80 + n / 64 % 64, 0x80 + n % 64]

def utf8Str : List Char → List Nat
  | [] => []
  | c :: t => utf8Char c ++ utf8Str t

def isCont (b : Nat) : Bool := 0x80 ≤ b ∧ b ≤ 0xbf

/-- One scalar value of strict UTF-8 decoding (overlong forms, surrogates
and out-of-range values rejected), as `bytes.decode()` does: the code
point and the remaining bytes, or `none` on a malformed prefix. -/
def utf8Step : List Nat → Option (Nat × List Nat)
  | [] => none
  | b :: rest =>
    if b < 0x80 then some (b, rest)
    else if 0xc2 ≤ b ∧ b ≤ 0xdf then
      match rest with
      | b2 :: r2 =>
        if isCont b2 then some ((b - 0xc0) * 64 + (b2 - 0x80), r2) else none
      | _ => none
    else if 0xe0 ≤ b ∧ b ≤ 0xef then
      match rest with
      | b2 :: b3 :: r2 =>
        let v := (b - 0xe0) * 4096 + (b2 - 0x80) * 64 + (b3 - 0x80)
        if isCont b2 ∧ isCont b3 ∧ 0x800 ≤ v ∧ ¬ (0xd800 ≤ v ∧ v ≤ 0xdfff) then
          some (v, r2)
        else none
      | _ => none
    else if 0xf0 ≤ b ∧ b ≤ 0xf4 then
      match rest with
      | b2 :: b3 :: b4 :: r2 =>
        let v := (b - 0xf0) * 262144 + (b2 - 0x80) * 4096 + (b3 - 0x80) * 64 + (b4 - 0x80)
        if isCont b2 ∧ isCont b3 ∧ isCont b4 ∧ 0x10000 ≤ v ∧ v ≤ 0x10ffff then
          some (v, r2)
        else none
      | _ => none
    else none

/-- Iterated `utf8Step`; each step consumes at least one byte, so fuel
equal to the byte count is always enough. -/
def utf8DecF : Nat → List Nat → Option (List Char)
  | _, [] => some []
  | 0, _ :: _ => none
  | f + 1, b :: rest =>
    match utf8Step (b :: rest) with
    | some (v, r) => (utf8DecF f r).map (fun s => Char.ofNat v :: s)
    | none => none

/-- Strict UTF-8 decoding of a whole byte string; `none` models
`UnicodeDecodeError`. -/
def utf8Dec (l : List Nat) : Option (List Char) := utf8DecF l.length l

/-! ### Model of `json.loads` -/

def isWsChar (c : Char) : Bool := c = ' ' ∨ c = '\t' ∨ c = '\n' ∨ c = '\r'

def skipWs : List Char → List Char
  | [] => []
  | c :: r => if isWsChar c then skipWs r else c :: r

def isDigit10 (c : Char) : Bool := 48 ≤ c.toNat ∧ c.toNat ≤ 57

/-- Hex digit value, upper or lower case accepted as `int(s, 16)` does. -/
def hexVal (c : Char) : Option Nat :=
  if 48 ≤ c.toNat ∧ c.toNat ≤ 57 then some (c.toNat - 48)
  else if 97 ≤ c.toNat ∧ c.toNat ≤ 102 then some (c.toNat - 87)
  else if 65 ≤ c.toNat ∧ c.toNat ≤ 70 then some (c.toNat - 55)
  else none

def hex4Val (a b c d : Char) : Option Nat :=
  match hexVal a, hexVal b, hexVal c, hexVal d with
  | some x, some y, some z, some w => some (x * 4096 + y * 256 + z * 16 + w)
  | _, _, _, _ => none

/-- Body of a JSON string after the opening quote, accumulator reversed,
following the stdlib `py_scanstring`: raw control characters rejected
(`strict=True`), the eight short escapes, `\uXXXX` with surrogate-pair
recombination. -/
def parseStrAux : Nat → List Char → List Char → Option (List Char × List Char)
  | 0, _, _ => none
  | fuel + 1, acc, s =>
    match s with
    | [] => none
    | c :: r =>
      if c = '"' then some (acc.reverse, r)
      else if c = '\\' then
        match r with
        | '"' :: r1 => parseStrAux fuel ('"' :: acc) r1
        | '\\' :: r1 => parseStrAux fuel ('\\' :: acc) r1
        | '/' :: r1 => parseStrAux fuel ('/' :: acc) r1
        | 'b' :: r1 => parseStrAux fuel ('\x08' :: acc) r1
        | 'f' :: r1 => parseStrAux fuel ('\x0c' :: acc) r1
        | 'n' :: r1 => parseStrAux fuel ('\n' :: acc) r1
        | 'r' :: r1 => parseStrAux fuel ('\r' :: acc) r1
        | 't' :: r1 => parseStrAux fuel ('\t' :: acc) r1
        | 'u' :: a :: b :: c2 :: d :: r1 =>
          match hex4Val a b c2 d with
          | none => none
          | some hi =>
            if 0xd800 ≤ hi ∧ hi ≤ 0xdbff then
              match r1 with
              | '\\' :: 'u' :: a2 :: b2 :: c3 :: d2 :: r2 =>
                match hex4Val a2 b2 c3 d2 with
                | some lo =>
                  if 0xdc00 ≤ lo ∧ lo ≤ 0xdfff then
                    parseStrAux fuel
                      (Char.ofNat (0x10000 + (hi - 0xd800) * 0x400 + (lo - 0xdc00)) :: acc) r2
                  else
                    parseStrAux fuel (Char.ofNat hi :: acc)
                      ('\\' :: 'u' :: a2 :: b2 :: c3 :: d2 :: r2)
                | none => none
              | _ => parseStrAux fuel (Char.ofNat hi :: acc) r1
            else parseStrAux fuel (Char.ofNat hi :: acc) r1
        | _ => none
      else if c.toNat < 0x20 then none
      else parseStrAux fuel (c :: acc) r

def digMunch (acc : Nat) : List Char → Nat × List Char
  | [] => (acc, [])
  | c :: r => if isDigit10 c then digMunch (acc * 10 + (c.toNat - 48)) r else (acc, c :: r)

/-- Head of `s` would extend the number token into a float (`NUMBER_RE`'s
optional fraction/exponent); floats are outside the model. -/
def floatFollows : List Char → Bool
  | [] => false
  | c :: _ => c = '.' ∨ c = 'e' ∨ c = 'E'

/-- Non-negative integer token: `0|[1-9][0-9]*` (a leading `0` ends the
match at once, as the stdlib regex does). -/
def parseNat : List Char → Option (Nat × List Char)
  | '0' :: r => if floatFollows r then none else some (0, r)
  | c :: r =>
    if isDigit10 c then
      let p := digMunch (c.toNat - 48) r
      if floatFollows p.2 then none else some p
    else none
  | [] => none

mutual
/-- One JSON value at the head of the input (whitespace already skipped),
mirroring the stdlib `scan_once`. -/
def parseVal : Nat → List Char → Option (Json × List Char)
  | 0, _ => none
  | fuel + 1, s =>
    match s with
    | 'n' :: 'u' :: 'l' :: 'l' :: r => some (.null, r)
    | 't' :: 'r' :: 'u' :: 'e' :: r => some (.bool true, r)
    | 'f' :: 'a' :: 'l' :: 's' :: 'e' :: r => some (.bool false, r)
    | '"' :: r => (parseStrAux (r.length + 1) [] r).map (fun p => (.str p.1, p.2))
    | '[' :: r =>
      match skipWs r with
      | ']' :: r2 => some (.arr .nil, r2)
      | r2 =>
        match parseElems fuel r2 with
        | some (xs, r3) => some (.arr xs, r3)
        | none => none
    | '\x7b' :: r =>
      match skipWs r with
      | '\x7d' :: r2 => some (.obj .nil, r2)
      | r2 =>
        match parseMembers fuel r2 with
        | some (kvs, r3) => some (.obj kvs, r3)
        | none => none
    | '-' :: r =>
      match parseNat r with
      | some (m, r2) => some (.num (-(m : Int)), r2)
      | none => none
    | c :: r =>
      if isDigit10 c then
        match parseNat (c :: r) with
        | some (m, r2) => some (.num (m : Int), r2)
        | none => none
      else none
    | [] => none

/-- Elements of a non-empty array from the first value up to and including
the closing bracket. -/
def parseElems : Nat → List Char → Option (JsonList × List Char)
  | 0, _ => none
  | fuel + 1, s =>
    match parseVal fuel s with
    | none => none
    | some (x, r) =>
      match skipWs r with
      | ',' :: r2 =>
        match parseElems fuel (skipWs r2) with
        | some (t, r3) => some (.cons x t, r3)
        | none => none
      | ']' :: r2 => some (.cons x .nil, r2)
      | _ => none

/-- Members of a non-empty object from the first key up to and including
the closing brace. -/
def parseMembers : Nat → List Char → Option (JsonObj × List Char)
  | 0, _ => none
  | fuel + 1, s =>
    match s with
    | '"' :: r =>
      match parseStrAux (r.length + 1) [] r with
      | none => none
      | some (k, r1) =>
        match skipWs r1 with
        | ':' :: r2 =>
          match parseVal fuel (skipWs r2) with
          | none => none
          | some (v, r3) =>
            match skipWs r3 with
            | ',' :: r4 =>
              match parseMembers fuel (skipWs r4) with
              | some (t, r5) => some (.cons k v t, r5)
              | none => none
            | '\x7d' :: r4 => some (.cons k v .nil, r4)
            | _ => none
        | _ => none
    | _ => none
end

/-- Model of `json.loads`: leading/trailing whitespace allowed, anything
else after the value is the `Extra data` error. -/
def loads (s : List Char) : Option Json :=
  match parseVal (s.length + 1) (skipWs s) with
  | some (j, rest) => if skipWs rest = [] then some j else none
  | none => none

/-! ### Wire framing -/

def sContentLengthSp : List Char := "Content-Length: ".toList
def sContentLengthKey : List Char := "Content-Length:".toList
def crlfcrlf : List Char := [ '\r', '\n', '\r', '\n' ]
def crlfcrlfB : List Nat := [13, 10, 13, 10]

/-- Bytes written by `LSPClient._send`:
`f"Content-Length: \x7blen(content)\x7d\r\n\r\n".encode() + content.encode()`
where `content = json.dumps(message)`.  Note the declared count is
`len(content)`, the Python string length in characters. -/
def sendBytes (msg : Json) : List Nat :=
  utf8Str (sContentLengthSp ++ natChars (dumps msg).length ++ crlfcrlf) ++ utf8Str (dumps msg)

/-- Python `pat in l` substring test on bytes. -/
def hasSub (pat l : List Nat) : Bool := l.tails.any (fun t => pat.isPrefixOf t)

/-- The read loop's header scan: take bytes one at a time until the
accumulated header contains `b"\r\n\r\n"`; `none` is end-of-stream before
the terminator (`_read_loop` returns). -/
def scanHeader (acc : List Nat) : List Nat → Option (List Nat × List Nat)
  | [] => none
  | b :: rest =>
    if hasSub crlfcrlfB (acc ++ [b]) then some (acc ++ [b], rest)
    else scanHeader (acc ++ [b]) rest

def splitCRLFAux (acc : List Char) : List Char → List (List Char)
  | [] => [acc.reverse]
  | '\r' :: '\n' :: rest => acc.reverse :: splitCRLFAux [] rest
  | c :: rest => splitCRLFAux (c :: acc) rest

/-- Python `s.split("\r\n")`. -/
def splitCRLF (s : List Char) : List (List Char) := splitCRLFAux [] s

def splitColonAux (acc : List Char) : List Char → List (List Char)
  | [] => [acc.reverse]
  | ':' :: rest => acc.reverse :: splitColonAux [] rest
  | c :: rest => splitColonAux (c :: acc) rest

/-- Python `s.split(":")`. -/
def splitColon (s : List Char) : List (List Char) := splitColonAux [] s

def isPyWs (c : Char) : Bool :=
  c = ' ' ∨ c = '\t' ∨ c = '\n' ∨ c = '\r' ∨ c = '\x0b' ∨ c = '\x0c'

/-- Python `s.strip()`. -/
def stripWs (s : List Char) : List Char :=
  ((s.dropWhile isPyWs).reverse.dropWhile isPyWs).reverse

def allDigits : List Char → Bool
  | [] => true
  | c :: r => isDigit10 c && allDigits r

def digitsVal (s : List Char) : Nat :=
  s.foldl (fun a c => a * 10 + (c.toNat - 48)) 0

def pyDigits (s : List Char) : Option Nat :=
  if s = [] then none else if allDigits s then some (digitsVal s) else none

/-- Python `int(s)` on the already-stripped argument: optional sign then
decimal digits; `none` models the `ValueError`.  (Underscore separators
and non-ASCII digits, which `int` also accepts, are not modelled; the
encoder never produces them.) -/
def pyInt (s : List Char) : Option Int :=
  match stripWs s with
  | '+' :: r => (pyDigits r).map Int.ofNat
  | '-' :: r => (pyDigits r).map (fun n => -(n : Int))
  | r => (pyDigits r).map Int.ofNat

/-- The header-parsing loop of `_read_loop` lines 85-88: start from 0,
overwrite with `int(line.split(":")[1].strip())` for every line starting
with `Content-Length:`; a `ValueError` escapes the whole iteration. -/
def clLoop (acc : Int) : List (List Char) → Option Int
  | [] => some acc
  | line :: rest =>
    if sContentLengthKey.isPrefixOf line then
      match (splitColon line).get? 1 with
      | some part =>
        match pyInt part with
        | some n => clLoop n rest
        | none => none
      | none => none
    else clLoop acc rest

def headerCL (hdr : List Char) : Option Int := clLoop 0 (splitCRLF hdr)

/-- One frame decoded exactly the way `_read_loop` reads it: scan to the
`\r\n\r\n` terminator, decode and parse the `Content-Length`, read exactly
that many bytes, decode UTF-8, `json.loads`. -/
def decodeFrame (bs : List Nat) : Option (Json × List Nat) :=
  match scanHeader [] bs with
  | none => none
  | some (hdr, rest) =>
    match utf8Dec hdr with
    | none => none
    | some hchars =>
      match headerCL hchars with
      | none => none
      | some n =>
        if 0 ≤ n ∧ n.toNat ≤ rest.length then
          match utf8Dec (rest.take n.toNat) with
          | none => none
          | some bchars =>
            match loads bchars with
            | some j => some (j, rest.drop n.toNat)
            | none => none
        else none

/-! ### Client state -/

inductive FutureState where
  | pending : FutureState
  | done (v : Json) : FutureState
  | failed (e : Json) : FutureState
  | cancelled : FutureState
deriving DecidableEq

/-- The mutable state of one `LSPClient`: the id counter, an arena of the
futures created by `request` (a future outlives its `pending_requests`
entry: the caller still holds it after the read loop pops the entry),
the correlation table mapping request ids to futures, the diagnostics
dict, and the read-task / child-process handles (`none` before `start`,
`some true` while live, `some false` after cancel/terminate). -/
structure ClientState where
  request_id : Nat
  futures : List FutureState
  pending_requests : List (Int × Nat)
  diagnostics : List (Json × Json)
  read_task : Option Bool
  proc : Option Bool
deriving DecidableEq

def initState : ClientState :=
  { request_id := 0, futures := [], pending_requests := [], diagnostics := [],
    read_task := none, proc := none }

/-- `dict.pop(k)` on the correlation table. -/
def popKey : List (Int × Nat) → Int → List (Int × Nat)
  | [], _ => []
  | (k, v) :: t, i => if k = i then t else (k, v) :: popKey t i

/-- `d[k] = v` on the diagnostics dict (keys are arbitrary values, as in
Python). -/
def setKJ : List (Json × Json) → Json → Json → List (Json × Json)
  | [], k, v => [(k, v)]
  | (k', v') :: t, k, v => if k' = k then (k, v) :: t else (k', v') :: setKJ t k v

def dGet : List (Json × Json) → Json → Option Json
  | [], _ => none
  | (k', v') :: t, k => if k' = k then some v' else dGet t k

/-- `d.get(k, dflt)` on the diagnostics dict. -/
def dGetD (d : List (Json × Json)) (k dflt : Json) : Json := (dGet d k).getD dflt

inductive LoopErr where
  | headerErr : LoopErr
  | bodyErr : LoopErr
  | incompleteRead : LoopErr
  | dispatchErr : LoopErr
deriving DecidableEq

def sJsonrpc : List Char := "jsonrpc".toList
def sVer2 : List Char := "2.0".toList
def sId : List Char := "id".toList
def sMethod : List Char := "method".toList
def sParams : List Char := "params".toList
def sResult : List Char := "result".toList
def sError : List Char := "error".toList
def sMessage : List Char := "message".toList
def sLspError : List Char := "LSP error".toList
def sPubDiag : List Char := "textDocument/publishDiagnostics".toList
def sUri : List Char := "uri".toList
def sDiagnostics : List Char := "diagnostics".toList

/-- Routing step of `_read_loop` lines 95-105 for one parsed message.
If the message has an `id` key holding an integer with a live entry, pop
the entry, then complete the future (`set_exception` when an `error` key
is present, else `set_result(message.get("result"))`); completing a
future that is no longer pending raises `InvalidStateError`, which the
loop's `except` swallows — modelled by the `Option LoopErr` component.
Otherwise a `textDocument/publishDiagnostics` notification overwrites the
diagnostics dict entry for its `uri`.  Anything else falls through.
(Model limits: a Python `bool`/`float` id comparing equal to an `int` key
is not modelled; neither client nor pyright produces one.) -/
def dispatchMessage (st : ClientState) (msg : Json) : ClientState × Option LoopErr :=
  match msg with
  | .obj o =>
    let hit : Option (Int × Nat) :=
      match objGetL o sId with
      | some (.num i) =>
        match List.lookup i st.pending_requests with
        | some fi => some (i, fi)
        | none => none
      | _ => none
    match hit with
    | some (i, fi) =>
      let st1 := { st with pending_requests := popKey st.pending_requests i }
      match objGetL o sError with
      | some (.obj eo) =>
        match st1.futures.get? fi with
        | some .pending =>
          ({ st1 with futures :=
              st1.futures.set fi (.failed ((objGetL eo sMessage).getD (.str sLspError))) }, none)
        | _ => (st1, some .dispatchErr)
      | some _ => (st1, some .dispatchErr)
      | none =>
        match st1.futures.get? fi with
        | some .pending =>
          ({ st1 with futures :=
              st1.futures.set fi (.done ((objGetL o sResult).getD .null)) }, none)
        | _ => (st1, some .dispatchErr)
    | none =>
      if objGetL o sMethod = some (.str sPubDiag) then
        match (objGetL o sParams).getD (jObj []) with
        | .obj po =>
          let key := (objGetL po sUri).getD (.str [])
          let val := (objGetL po sDiagnostics).getD (.arr .nil)
          ({ st with diagnostics := setKJ st.diagnostics key val }, none)
        | _ => (st, some .dispatchErr)
      else (st, none)
  | _ => (st, some .dispatchErr)

/-- `_read_loop` over a byte stream, fuel-indexed (`readLoop` supplies
enough).  Returns the final state and the errors printed to stderr, in
order.  End-of-stream mid-header returns; every exception inside the
`try` is printed and the loop continues at the current stream position;
`readexactly` beyond the remaining bytes consumes them all and raises,
so the next iteration sees end-of-stream. -/
def readLoopF : Nat → ClientState → List Nat → ClientState × List LoopErr
  | 0, st, _ => (st, [])
  | fuel + 1, st, bs =>
    match scanHeader [] bs with
    | none => (st, [])
    | some (hdr, rest) =>
      match utf8Dec hdr with
      | none =>
        let p := readLoopF fuel st rest
        (p.1, .headerErr :: p.2)
      | some hchars =>
        match headerCL hchars with
        | none =>
          let p := readLoopF fuel st rest
          (p.1, .headerErr :: p.2)
        | some n =>
          if 0 ≤ n ∧ n.toNat ≤ rest.length then
            match utf8Dec (rest.take n.toNat) with
            | none =>
              let p := readLoopF fuel st (rest.drop n.toNat)
              (p.1, .bodyErr :: p.2)
            | some bchars =>
              match loads bchars with
              | none =>
                let p := readLoopF fuel st (rest.drop n.toNat)
                (p.1, .bodyErr :: p.2)
              | some msg =>
                let d := dispatchMessage st msg
                let p := readLoopF fuel d.1 (rest.drop n.toNat)
                match d.2 with
                | some e => (p.1, e :: p.2)
                | none => p
          else
            let p := readLoopF fuel st (if n < 0 then rest else [])
            (p.1, .incompleteRead :: p.2)

def readLoop (st : ClientState) (bs : List Nat) : ClientState × List LoopErr :=
  readLoopF (bs.length + 1) st bs

/-! ### Session operations -/

inductive Effect where
  | send (msg : Json) : Effect
  | sleepMs (ms : Nat) : Effect
deriving DecidableEq

def reqMsg (rid : Int) (method : List Char) (params : Json) : Json :=
  jObj [(sJsonrpc, .str sVer2), (sId, .num rid), (sMethod, .str method), (sParams, params)]

def notifMsg (method : List Char) (params : Json) : Json :=
  jObj [(sJsonrpc, .str sVer2), (sMethod, .str method), (sParams, params)]

/-- `LSPClient.request` up to its `await`: increment the id counter, create
a pending future, register it in the correlation table, write the framed
request.  Returns the send effect, the allocated id, the future's index
and the new state. -/
def request (st : ClientState) (method : List Char) (params : Json) :
    Effect × Int × Nat × ClientState :=
  let rid : Int := ((st.request_id + 1 : Nat) : Int)
  let fi := st.futures.length
  (.send (reqMsg rid method params), rid, fi,
   { st with request_id := st.request_id + 1,
             futures := st.futures ++ [.pending],
             pending_requests := st.pending_requests ++ [(rid, fi)] })

/-- Expiry of `asyncio.wait_for(future, timeout=30.0)`: the future is
cancelled and `TimeoutError` is raised to the caller.  Nothing touches
`pending_requests`. -/
def expireTimeout (st : ClientState) (fi : Nat) : ClientState :=
  match st.futures.get? fi with
  | some .pending => { st with futures := st.futures.set fi .cancelled }
  | _ => st

/-- `LSPClient.stop`: cancel the read task if any, terminate and wait on
the process if any.  Futures and the correlation table are untouched. -/
def stop (st : ClientState) : ClientState :=
  { st with read_task := st.read_task.map (fun _ => false),
            proc := st.proc.map (fun _ => false) }

/-! ### High-level document operations -/

def sFileScheme : List Char := "file://".toList
def sDidOpen : List Char := "textDocument/didOpen".toList
def sTextDocument : List Char := "textDocument".toList
def sLanguageId : List Char := "languageId".toList
def sPython : List Char := "python".toList
def sVersion : List Char := "version".toList
def sText : List Char := "text".toList
def sPosition : List Char := "position".toList
def sLine : List Char := "line".toList
def sCharacter : List Char := "character".toList
def sContext : List Char := "context".toList
def sIncludeDeclaration : List Char := "includeDeclaration".toList
def sNewName : List Char := "newName".toList
def sDefinitionM : List Char := "textDocument/definition".toList
def sReferencesM : List Char := "textDocument/references".toList
def sHoverM : List Char := "textDocument/hover".toList
def sRenameM : List Char := "textDocument/rename".toList
def sCompletionM : List Char := "textDocument/completion".toList
def sDeclarationM : List Char := "textDocument/declaration".toList
def sTypeDefinitionM : List Char := "textDocument/typeDefinition".toList
def sImplementationM : List Char := "textDocument/implementation".toList
def sSignatureHelpM : List Char := "textDocument/signatureHelp".toList
def sDocumentHighlightM : List Char := "textDocument/documentHighlight".toList

def fileUri (path : List Char) : List Char := sFileScheme ++ path

/-- The `textDocument/didOpen` notification `open_file` sends: full file
content, constant version 1. -/
def didOpenMsg (path content : List Char) : Json :=
  notifMsg sDidOpen (jObj [(sTextDocument, jObj
    [(sUri, .str (fileUri path)), (sLanguageId, .str sPython),
     (sVersion, .num 1), (sText, .str content)])])

inductive OpenResult where
  | content (text : List Char) : OpenResult
  | readError : OpenResult
deriving DecidableEq

/-- `LSPClient.open_file`: read the file (the filesystem is the function
`fs`); on failure return the error string without sending anything; on
success send `didOpen` and return the content. -/
def open_file (fs : List Char → Option (List Char)) (path : List Char) :
    List Effect × OpenResult :=
  match fs path with
  | none => ([], .readError)
  | some text => ([ .send (didOpenMsg path text) ], .content text)

/-- Position params shared by the position-based operations: 1-indexed
human input shifted to the protocol's 0-indexed `line`/`character`. -/
def posParams (path : List Char) (line col : Int) : Json :=
  jObj [(sTextDocument, jObj [(sUri, .str (fileUri path))]),
        (sPosition, jObj [(sLine, .num (line - 1)), (sCharacter, .num (col - 1))])]

def refParams (path : List Char) (line col : Int) : Json :=
  jObj [(sTextDocument, jObj [(sUri, .str (fileUri path))]),
        (sPosition, jObj [(sLine, .num (line - 1)), (sCharacter, .num (col - 1))]),
        (sContext, jObj [(sIncludeDeclaration, .bool true)])]

def renameParams (path : List Char) (line col : Int) (newName : List Char) : Json :=
  jObj [(sTextDocument, jObj [(sUri, .str (fileUri path))]),
        (sPosition, jObj [(sLine, .num (line - 1)), (sCharacter, .num (col - 1))]),
        (sNewName, .str newName)]

def FS := List Char → Option (List Char)

def get_definition (fs : FS) (st : ClientState) (path : List Char) (line col : Int) :
    List Effect × ClientState :=
  let o := open_file fs path
  let r := request st sDefinitionM (posParams path line col)
  (o.1 ++ [ r.1 ], r.2.2.2)

def get_references (fs : FS) (st : ClientState) (path : List Char) (line col : Int) :
    List Effect × ClientState :=
  let o := open_file fs path
  let r := request st sReferencesM (refParams path line col)
  (o.1 ++ [ r.1 ], r.2.2.2)

def get_hover (fs : FS) (st : ClientState) (path : List Char) (line col : Int) :
    List Effect × ClientState :=
  let o := open_file fs path
  let r := request st sHoverM (posParams path line col)
  (o.1 ++ [ r.1 ], r.2.2.2)

def rename_symbol (fs : FS) (st : ClientState) (path : List Char) (line col : Int)
    (newName : List Char) : List Effect × ClientState :=
  let o := open_file fs path
  let r := request st sRenameM (renameParams path line col newName)
  (o.1 ++ [ r.1 ], r.2.2.2)

def get_completion (fs : FS) (st : ClientState) (path : List Char) (line col : Int) :
    List Effect × ClientState :=
  let o := open_file fs path
  let r := request st sCompletionM (posParams path line col)
  (o.1 ++ [ r.1 ], r.2.2.2)

def get_declaration (fs : FS) (st : ClientState) (path : List Char) (line col : Int) :
    List Effect × ClientState :=
  let o := open_file fs path
  let r := request st sDeclarationM (posParams path line col)
  (o.1 ++ [ r.1 ], r.2.2.2)

def get_type_definition (fs : FS) (st : ClientState) (path : List Char) (line col : Int) :
    List Effect × ClientState :=
  let o := open_file fs path
  let r := request st sTypeDefinitionM (posParams path line col)
  (o.1 ++ [ r.1 ], r.2.2.2)

def get_implementation (fs : FS) (st : ClientState) (path : List Char) (line col : Int) :
    List Effect × ClientState :=
  let o := open_file fs path
  let r := request st sImplementationM (posParams path line col)
  (o.1 ++ [ r.1 ], r.2.2.2)

def get_signature_help (fs : FS) (st : ClientState) (path : List Char) (line col : Int) :
    List Effect × ClientState :=
  let o := open_file fs path
  let r := request st sSignatureHelpM (posParams path line col)
  (o.1 ++ [ r.1 ], r.2.2.2)

def get_document_highlight (fs : FS) (st : ClientState) (path : List Char) (line col : Int) :
    List Effect × ClientState :=
  let o := open_file fs path
  let r := request st sDocumentHighlightM (posParams path line col)
  (o.1 ++ [ r.1 ], r.2.2.2)

/-- `LSPClient.get_diagnostics`: open the file, sleep half a second, then
read the diagnostics dict with default `[]`. -/
def get_diagnostics (fs : FS) (st : ClientState) (path : List Char) :
    List Effect × ClientState × Json :=
  let o := open_file fs path
  (o.1 ++ [ .sleepMs 500 ], st, dGetD st.diagnostics (.str (fileUri path)) (.arr .nil))

/-- The position-based operations of the claim (`rename` carries its new
name). -/
inductive PosOp where
  | definitionOp : PosOp
  | referencesOp : PosOp
  | hoverOp : PosOp
  | renameOp (newName : List Char) : PosOp
  | completionOp : PosOp
  | declarationOp : PosOp
  | typeDefinitionOp : PosOp
  | implementationOp : PosOp
  | signatureHelpOp : PosOp
  | documentHighlightOp : PosOp
deriving DecidableEq

def opRun (op : PosOp) (fs : FS) (st : ClientState) (path : List Char) (line col : Int) :
    List Effect × ClientState :=
  match op with
  | .definitionOp => get_definition fs st path line col
  | .referencesOp => get_references fs st path line col
  | .hoverOp => get_hover fs st path line col
  | .renameOp nn => rename_symbol fs st path line col nn
  | .completionOp => get_completion fs st path line col
  | .declarationOp => get_declaration fs st path line col
  | .typeDefinitionOp => get_type_definition fs st path line col
  | .implementationOp => get_implementation fs st path line col
  | .signatureHelpOp => get_signature_help fs st path line col
  | .documentHighlightOp => get_document_highlight fs st path line col

def opMethod : PosOp → List Char
  | .definitionOp => sDefinitionM
  | .referencesOp => sReferencesM
  | .hoverOp => sHoverM
  | .renameOp _ => sRenameM
  | .completionOp => sCompletionM
  | .declarationOp => sDeclarationM
  | .typeDefinitionOp => sTypeDefinitionM
  | .implementationOp => sImplementationM
  | .signatureHelpOp => sSignatureHelpM
  | .documentHighlightOp => sDocumentHighlightM

def opParams (op : PosOp) (path : List Char) (line col : Int) : Json :=
  match op with
  | .referencesOp => refParams path line col
  | .renameOp nn => renameParams path line col nn
  | _ => posParams path line col

/-! ### Response messages and multi-step runs -/

/-- A server response carrying a result, in the envelope of §6 of the
wire protocol. -/
def respMsg (i : Int) (v : Json) : Json :=
  jObj [(sJsonrpc, .str sVer2), (sId, .num i), (sResult, v)]

/-- A server response carrying an error object. -/
def respErrMsg (i : Int) (e : List Char) : Json :=
  jObj [(sJsonrpc, .str sVer2), (sId, .num i), (sError, jObj [(sMessage, .str e)])]

/-- A `textDocument/publishDiagnostics` push notification. -/
def diagMsg (uri : List Char) (diags : Json) : Json :=
  notifMsg sPubDiag (jObj [(sUri, .str uri), (sDiagnostics, diags)])

inductive RespOutcome where
  | ok (v : Json) : RespOutcome
  | err (e : List Char) : RespOutcome
deriving DecidableEq

def respOf (i : Int) : RespOutcome → Json
  | .ok v => respMsg i v
  | .err e => respErrMsg i e

/-- The future state a response should leave behind: `set_result` for a
result, `set_exception` with the error's `message` for an error. -/
def expectedFut : RespOutcome → FutureState
  | .ok v => .done v
  | .err e => .failed (.str e)

/-- Route a list of already-parsed messages in arrival order. -/
def dispatchAll (st : ClientState) : List Json → ClientState
  | [] => st
  | m :: t => dispatchAll (dispatchMessage st m).1 t

/-- Issue a sequence of `request` calls back to back, collecting the
allocated ids. -/
def issueAll (st : ClientState) : List (List Char × Json) → List Int × ClientState
  | [] => ([], st)
  | c :: t =>
    let r := request st c.1 c.2
    let rest := issueAll r.2.2.2 t
    (r.2.1 :: rest.1, rest.2)

/-- State with `n` requests in flight, ids `1..n`, futures `0..n-1`. -/
def stN (n : Nat) : ClientState :=
  (issueAll initState (List.replicate n (sHoverM, Json.null))).2

/-- The correlation table `n` back-to-back registrations build on top of
counter `base` and future arena offset `fOff`. -/
def idTable (base fOff n : Nat) : List (Int × Nat) :=
  (List.range n).map (fun j => (((base + 1 + j : Nat) : Int), fOff + j))

/-! ### Concrete fixtures -/

def pathA : List Char := "/w/a.py".toList
def contentA : List Char := "x = 1".toList
def oneFileFs : FS := fun p => if p = pathA then some contentA else none
def emptyFs : FS := fun _ => none

/-- A started session with one request in flight (id 1, future 0). -/
def pendingOneState : ClientState :=
  (request { initState with read_task := some true, proc := some true } sHoverM .null).2.2.2

/-- A frame whose header has no parsable `Content-Length`
(`int(" abc")` raises `ValueError`). -/
def badHdrBytes : List Nat := utf8Str ("Content-Length: abc".toList ++ crlfcrlf)

/-- A well-framed message whose two-byte body is not valid JSON. -/
def badBodyBytes : List Nat :=
  utf8Str ("Content-Length: 2".toList ++ crlfcrlf) ++ utf8Str ('\x7b' :: ']' :: [])

def c1Out : Nat → RespOutcome :=
  fun k => if k = 1 then .ok (.num 10) else if k = 2 then .ok (.num 20) else .err ('b' :: [])

/-- A frame declaring five body bytes whose stream ends after one:
`readexactly` raises `IncompleteReadError` after consuming what is left. -/
def midBodyBytes : List Nat := utf8Str ("Content-Length: 5".toList ++ crlfcrlf) ++ [123]

/-- Head of `rest` would not extend a just-parsed number token (neither a
digit nor `.`/`e`/`E`); every inter-token position of `dumps` output
satisfies it. -/
def numBoundary : List Char → Bool
  | [] => true
  | c :: _ => !(isDigit10 c) && !(c = '.') && !(c = 'e') && !(c = 'E')

mutual
def sizeJ : Json → Nat
  | .null => 1
  | .bool _ => 1
  | .num _ => 1
  | .str _ => 1
  | .arr xs => sizeL xs + 2
  | .obj kvs => sizeO kvs + 2

def sizeL : JsonList → Nat
  | .nil => 0
  | .cons h t => sizeJ h + sizeL t

def sizeO : JsonObj → Nat
  | .nil => 0
  | .cons _ v t => sizeJ v + sizeO t
end

/-- The characters of a dumped array between `[` and `]`. -/
def dumpsInner : JsonList → List Char
  | .nil => []
  | .cons h t => dumps h ++ dumpsElems t

/-- The characters of a dumped object between the braces. -/
def dumpsInnerO : JsonObj → List Char
  | .nil => []
  | .cons k v t => escStr k ++ ':' :: ' ' :: dumps v ++ dumpsMembers t

/-! ## Helper lemmas -/

theorem get?_set_self {l : List FutureState} {i : Nat} {a : FutureState} (h : i < l.length) :
    (l.set i a).get? i = some a := by
  simp [List.getElem?_set_eq_of_lt, h]

theorem get?_set_other {l : List FutureState} {i j : Nat} {a : FutureState} (h : j ≠ i) :
    (l.set i a).get? j = l.get? j := by
  simp [List.getElem?_set_ne (Ne.symm h)]

theorem lt_of_get?_eq_some {l : List FutureState} {i : Nat} {x : FutureState}
    (h : l.get? i = some x) : i < l.length := by
  obtain ⟨hh, _⟩ := List.get?_eq_some.mp h
  exact hh

theorem lookup_popKey_ne {l : List (Int × Nat)} {i j : Int} (h : j ≠ i) :
    List.lookup j (popKey l i) = List.lookup j l := by
  induction l with
  | nil => rfl
  | cons p t ih =>
    obtain ⟨k, v⟩ := p
    by_cases hk : k = i
    · subst hk
      have hb : (j == k) = false := by simp [h]
      simp [popKey, List.lookup, hb]
    · cases hjk : (j == k) with
      | true => simp [popKey, hk, List.lookup, hjk]
      | false => simp [popKey, hk, List.lookup, hjk, ih]

theorem dGet_setKJ_self (d : List (Json × Json)) (k v : Json) :
    dGet (setKJ d k v) k = some v := by
  induction d with
  | nil => simp [setKJ, dGet]
  | cons p t ih =>
    obtain ⟨k', v'⟩ := p
    by_cases h : k' = k
    · simp [setKJ, h, dGet]
    · simp [setKJ, h, dGet, ih]

/-! ## Dispatch-step lemmas -/

theorem dispatch_respMsg_ok {st : ClientState} {i : Int} {fi : Nat} (v : Json)
    (hl : List.lookup i st.pending_requests = some fi)
    (hf : st.futures.get? fi = some .pending) :
    dispatchMessage st (respMsg i v) =
      ({ st with pending_requests := popKey st.pending_requests i,
                 futures := st.futures.set fi (.done v) }, none) := by
  have hid : objGetL (toObj [(sJsonrpc, .str sVer2), (sId, .num i), (sResult, v)]) sId
      = some (.num i) := rfl
  have herr : objGetL (toObj [(sJsonrpc, .str sVer2), (sId, .num i), (sResult, v)]) sError
      = none := rfl
  have hres : objGetL (toObj [(sJsonrpc, .str sVer2), (sId, .num i), (sResult, v)]) sResult
      = some v := rfl
  have hf' : st.futures[fi]? = some FutureState.pending := by simpa using hf
  simp [respMsg, jObj, dispatchMessage, hid, herr, hres, hl, hf']

theorem dispatch_respErrMsg {st : ClientState} {i : Int} {fi : Nat} (e : List Char)
    (hl : List.lookup i st.pending_requests = some fi)
    (hf : st.futures.get? fi = some .pending) :
    dispatchMessage st (respErrMsg i e) =
      ({ st with pending_requests := popKey st.pending_requests i,
                 futures := st.futures.set fi (.failed (.str e)) }, none) := by
  have hid : objGetL (toObj [(sJsonrpc, .str sVer2), (sId, .num i),
      (sError, Json.obj (toObj [(sMessage, .str e)]))]) sId = some (.num i) := rfl
  have herr : objGetL (toObj [(sJsonrpc, .str sVer2), (sId, .num i),
      (sError, Json.obj (toObj [(sMessage, .str e)]))]) sError
      = some (.obj (toObj [(sMessage, .str e)])) := rfl
  have hmsg : objGetL (toObj [(sMessage, .str e)]) sMessage = some (.str e) := rfl
  have hf' : st.futures[fi]? = some FutureState.pending := by simpa using hf
  simp [respErrMsg, jObj, dispatchMessage, hid, herr, hmsg, hl, hf']

theorem dispatch_respMsg_stale {st : ClientState} {i : Int} {fi : Nat} (v : Json)
    (hl : List.lookup i st.pending_requests = some fi)
    (hf : st.futures.get? fi = some .cancelled) :
    dispatchMessage st (respMsg i v) =
      ({ st with pending_requests := popKey st.pending_requests i }, some .dispatchErr) := by
  have hid : objGetL (toObj [(sJsonrpc, .str sVer2), (sId, .num i), (sResult, v)]) sId
      = some (.num i) := rfl
  have herr : objGetL (toObj [(sJsonrpc, .str sVer2), (sId, .num i), (sResult, v)]) sError
      = none := rfl
  have hf' : st.futures[fi]? = some FutureState.cancelled := by simpa using hf
  simp [respMsg, jObj, dispatchMessage, hid, herr, hl, hf']

/-! ## Claim C1 -/

theorem idTable_succ (b f0 n : Nat) :
    idTable b f0 (n + 1) = (((b + 1 : Nat) : Int), f0) :: idTable (b + 1) (f0 + 1) n := by
  unfold idTable
  rw [List.range_succ_eq_map]
  simp only [List.map_cons, List.map_map]
  congr 1
  simp only [List.map_inj_left, Function.comp, List.mem_range]
  intro a _
  refine Prod.ext ?_ ?_
  · simp only []
    congr 1
    omega
  · simp only []
    omega

theorem issueAll_tables (calls : List (List Char × Json)) :
    ∀ st : ClientState,
      (issueAll st calls).2.pending_requests
        = st.pending_requests ++ idTable st.request_id st.futures.length calls.length
      ∧ (issueAll st calls).2.futures = st.futures ++ List.replicate calls.length .pending := by
  induction calls with
  | nil => intro st; simp [issueAll, idTable]
  | cons c t ih =>
    intro st
    obtain ⟨ihp, ihf⟩ := ih (request st c.1 c.2).2.2.2
    have hst : (issueAll st (c :: t)).2 = (issueAll (request st c.1 c.2).2.2.2 t).2 := rfl
    have hreq_p : (request st c.1 c.2).2.2.2.pending_requests
        = st.pending_requests ++ [(((st.request_id + 1 : Nat) : Int), st.futures.length)] := rfl
    have hreq_f : (request st c.1 c.2).2.2.2.futures = st.futures ++ [FutureState.pending] := rfl
    have hreq_r : (request st c.1 c.2).2.2.2.request_id = st.request_id + 1 := rfl
    constructor
    · rw [hst, ihp, hreq_p, hreq_r, hreq_f]
      simp only [List.length_cons, List.length_append, List.length_singleton]
      rw [idTable_succ]
      simp [List.append_assoc]
    · rw [hst, ihf, hreq_f]
      simp [List.replicate_succ, List.append_assoc, List.length_cons]

theorem lookup_idTable :
    ∀ (n b f0 k : Nat), b + 1 ≤ k → k ≤ b + n →
      List.lookup ((k : Nat) : Int) (idTable b f0 n) = some (f0 + (k - b - 1)) := by
  intro n
  induction n with
  | zero => intro b f0 k h1 h2; omega
  | succ m ih =>
    intro b f0 k h1 h2
    rw [idTable_succ]
    by_cases hk : k = b + 1
    · subst hk
      simp [List.lookup]
    · have hb : (((k : Nat) : Int) == ((b + 1 : Nat) : Int)) = false := by
        simp only [beq_eq_false_iff_ne, ne_eq]
        exact_mod_cast hk
      simp only [List.lookup, hb]
      rw [ih (b + 1) (f0 + 1) k (by omega) (by omega)]
      congr 1
      omega

theorem stN_tables (n : Nat) :
    (stN n).pending_requests = idTable 0 0 n
    ∧ (stN n).futures = List.replicate n .pending := by
  have h := issueAll_tables (List.replicate n (sHoverM, Json.null)) initState
  simpa [stN, initState] using h

theorem get?_replicate_lt {n j : Nat} (h : j < n) :
    (List.replicate n FutureState.pending).get? j = some .pending := by
  simp [List.getElem?_replicate, h]

/-- The central routing invariant of the dispatch loop: given any batch of
registered ids whose futures are pending, and responses for those ids
arriving in ANY order, every future ends up holding exactly the outcome
of the response carrying its own id, and no other future is touched. -/
theorem routeAll (ord : List Nat) :
    ∀ (st : ClientState) (f : Nat → Nat) (out : Nat → RespOutcome),
      ord.Nodup →
      (∀ k ∈ ord, List.lookup ((k : Nat) : Int) st.pending_requests = some (f k)) →
      (∀ k ∈ ord, st.futures.get? (f k) = some .pending) →
      (∀ k1 ∈ ord, ∀ k2 ∈ ord, k1 ≠ k2 → f k1 ≠ f k2) →
      (∀ k ∈ ord,
        (dispatchAll st (ord.map (fun j => respOf ((j : Nat) : Int) (out j)))).futures.get? (f k)
          = some (expectedFut (out k)))
      ∧ (∀ j : Nat, (∀ k ∈ ord, j ≠ f k) →
          (dispatchAll st (ord.map (fun j => respOf ((j : Nat) : Int) (out j)))).futures.get? j
            = st.futures.get? j) := by
  induction ord with
  | nil =>
    intro st f out _ _ _ _
    exact ⟨by simp [dispatchAll], by intro j _; simp [dispatchAll]⟩
  | cons k0 t ih =>
    intro st f out hnd hreg hpend hinj
    have hk0t : k0 ∉ t := (List.nodup_cons.mp hnd).1
    have hndt : t.Nodup := (List.nodup_cons.mp hnd).2
    have hl := hreg k0 (List.mem_cons_self k0 t)
    have hf := hpend k0 (List.mem_cons_self k0 t)
    have hlt : f k0 < st.futures.length := lt_of_get?_eq_some hf
    have hstep : (dispatchMessage st (respOf ((k0 : Nat) : Int) (out k0))).1
        = { st with pending_requests := popKey st.pending_requests ((k0 : Nat) : Int),
                    futures := st.futures.set (f k0) (expectedFut (out k0)) } := by
      cases hout : out k0 with
      | ok v => simp [respOf, dispatch_respMsg_ok v hl hf, expectedFut]
      | err e => simp [respOf, dispatch_respErrMsg e hl hf, expectedFut]
    have hstep_p : (dispatchMessage st (respOf ((k0 : Nat) : Int) (out k0))).1.pending_requests
        = popKey st.pending_requests ((k0 : Nat) : Int) := by rw [hstep]
    have hstep_f : (dispatchMessage st (respOf ((k0 : Nat) : Int) (out k0))).1.futures
        = st.futures.set (f k0) (expectedFut (out k0)) := by rw [hstep]
    have hreg' : ∀ k ∈ t,
        List.lookup ((k : Nat) : Int)
          (dispatchMessage st (respOf ((k0 : Nat) : Int) (out k0))).1.pending_requests
        = some (f k) := by
      intro k hk
      rw [hstep_p]
      have hkne : k ≠ k0 := fun h => hk0t (h ▸ hk)
      have hne : ((k : Nat) : Int) ≠ ((k0 : Nat) : Int) := by exact_mod_cast hkne
      rw [lookup_popKey_ne hne]
      exact hreg k (List.mem_cons_of_mem _ hk)
    have hpend' : ∀ k ∈ t,
        (dispatchMessage st (respOf ((k0 : Nat) : Int) (out k0))).1.futures.get? (f k)
          = some .pending := by
      intro k hk
      rw [hstep_f]
      have hkne : k ≠ k0 := fun h => hk0t (h ▸ hk)
      rw [get?_set_other (hinj k (List.mem_cons_of_mem _ hk) k0 (List.mem_cons_self k0 t) hkne)]
      exact hpend k (List.mem_cons_of_mem _ hk)
    have hinj' : ∀ k1 ∈ t, ∀ k2 ∈ t, k1 ≠ k2 → f k1 ≠ f k2 := fun k1 h1 k2 h2 =>
      hinj k1 (List.mem_cons_of_mem _ h1) k2 (List.mem_cons_of_mem _ h2)
    obtain ⟨IH1, IH2⟩ := ih _ f out hndt hreg' hpend' hinj'
    have hda : dispatchAll st ((k0 :: t).map (fun j => respOf ((j : Nat) : Int) (out j)))
        = dispatchAll (dispatchMessage st (respOf ((k0 : Nat) : Int) (out k0))).1
            (t.map (fun j => respOf ((j : Nat) : Int) (out j))) := rfl
    constructor
    · intro k hk
      rcases List.mem_cons.mp hk with hkk | hkt
      · subst hkk
        rw [hda]
        have hfr : ∀ k' ∈ t, f k ≠ f k' := fun k' hk' =>
          hinj k (List.mem_cons_self k t) k' (List.mem_cons_of_mem _ hk')
            (fun h => hk0t (h ▸ hk'))
        rw [IH2 (f k) hfr, hstep_f]
        exact get?_set_self hlt
      · rw [hda]
        exact IH1 k hkt
    · intro j hj
      rw [hda, IH2 j (fun k hk => hj k (List.mem_cons_of_mem _ hk)), hstep_f]
      exact get?_set_other (hj k0 (List.mem_cons_self k0 t))

/-- Claim C1: with requests 1..n in flight, responses (results or errors)
arriving in ANY order — any permutation of the ids — leave each request's
waiter holding exactly the outcome of the response whose id equals its
own allocated id, never one matched by arrival position or submission
order. -/
theorem c1_routing_by_id (n : Nat) (ord : List Nat) (out : Nat → RespOutcome)
    (hperm : ord.Perm (List.range' 1 n)) :
    ∀ k ∈ ord,
      List.lookup ((k : Nat) : Int) (stN n).pending_requests = some (k - 1)
      ∧ (dispatchAll (stN n)
          (ord.map (fun j => respOf ((j : Nat) : Int) (out j)))).futures.get? (k - 1)
          = some (expectedFut (out k)) := by
  obtain ⟨hpend_tab, hfut⟩ := stN_tables n
  have hmem : ∀ k ∈ ord, 1 ≤ k ∧ k ≤ n := by
    intro k hk
    have h2 := hperm.mem_iff.mp hk
    rw [List.mem_range'_1] at h2
    omega
  have hnd : ord.Nodup := hperm.nodup_iff.mpr (List.nodup_range' 1 n 1 (by norm_num))
  have hreg : ∀ k ∈ ord, List.lookup ((k : Nat) : Int) (stN n).pending_requests
      = some (k - 1) := by
    intro k hk
    obtain ⟨h1, h2⟩ := hmem k hk
    rw [hpend_tab]
    have h := lookup_idTable n 0 0 k (by omega) (by omega)
    simpa using h
  have hpend : ∀ k ∈ ord, (stN n).futures.get? (k - 1) = some .pending := by
    intro k hk
    obtain ⟨h1, h2⟩ := hmem k hk
    rw [hfut]
    exact get?_replicate_lt (by omega)
  have hinj : ∀ k1 ∈ ord, ∀ k2 ∈ ord, k1 ≠ k2 → k1 - 1 ≠ k2 - 1 := by
    intro k1 h1 k2 h2 hne
    obtain ⟨a1, _⟩ := hmem k1 h1
    obtain ⟨a2, _⟩ := hmem k2 h2
    omega
  obtain ⟨H1, _⟩ := routeAll ord (stN n) (fun k => k - 1) out hnd hreg hpend hinj
  intro k hk
  exact ⟨hreg k hk, H1 k hk⟩

/-- Claim C1, witness: ids [1,2,3] issued in order, responses arriving in
order [3,1,2] (id 3's being an error), each waiter gets its own id's
outcome. -/
theorem c1_witness :
    ([3, 1, 2] : List Nat).Perm (List.range' 1 3)
    ∧ (dispatchAll (stN 3)
        (([3, 1, 2] : List Nat).map (fun j => respOf ((j : Nat) : Int) (c1Out j)))).futures.get? 0
        = some (.done (.num 10))
    ∧ (dispatchAll (stN 3)
        (([3, 1, 2] : List Nat).map (fun j => respOf ((j : Nat) : Int) (c1Out j)))).futures.get? 1
        = some (.done (.num 20))
    ∧ (dispatchAll (stN 3)
        (([3, 1, 2] : List Nat).map (fun j => respOf ((j : Nat) : Int) (c1Out j)))).futures.get? 2
        = some (.failed (.str ('b' :: []))) := by
  have h := c1_routing_by_id 3 [3, 1, 2] c1Out (by decide)
  refine ⟨by decide, ?_, ?_, ?_⟩
  · simpa [c1Out, expectedFut] using (h 1 (by decide)).2
  · simpa [c1Out, expectedFut] using (h 2 (by decide)).2
  · simpa [c1Out, expectedFut] using (h 3 (by decide)).2

/-! ## Claim C6 -/

theorem char_lt_uni (c : Char) : c.toNat < 0x110000 := by
  have h0 : c.toNat = c.val.toNat := rfl
  rcases c.valid with h | ⟨h1, h2⟩
  · omega
  · omega

theorem char_not_surrogate (c : Char) : ¬ (0xd800 ≤ c.toNat ∧ c.toNat ≤ 0xdfff) := by
  have h0 : c.toNat = c.val.toNat := rfl
  rcases c.valid with h | ⟨h1, h2⟩
  · omega
  · omega

theorem digitChar10_printable {d : Nat} (h : d < 10) :
    0x20 ≤ (digitChar10 d).toNat ∧ (digitChar10 d).toNat ≤ 0x7e := by
  interval_cases d <;> decide

theorem hexDigitL_printable {d : Nat} (h : d < 16) :
    0x20 ≤ (hexDigitL d).toNat ∧ (hexDigitL d).toNat ≤ 0x7e := by
  interval_cases d <;> decide

theorem natCharsAux_printable :
    ∀ fuel n : Nat, ∀ c ∈ natCharsAux fuel n, 0x20 ≤ c.toNat ∧ c.toNat ≤ 0x7e := by
  intro fuel
  induction fuel with
  | zero => simp [natCharsAux]
  | succ f ih =>
    intro n c hc
    by_cases h : n < 10
    · simp [natCharsAux, h] at hc
      subst hc
      exact digitChar10_printable h
    · simp only [natCharsAux, if_neg h, List.mem_append, List.mem_singleton] at hc
      rcases hc with h1 | h2
      · exact ih _ c h1
      · subst h2
        exact digitChar10_printable (Nat.mod_lt _ (by omega))

theorem intChars_printable (n : Int) :
    ∀ c ∈ intChars n, 0x20 ≤ c.toNat ∧ c.toNat ≤ 0x7e := by
  intro c hc
  unfold intChars at hc
  by_cases h : n < 0
  · simp only [if_pos h, List.mem_cons] at hc
    rcases hc with rfl | hc
    · decide
    · exact natCharsAux_printable _ _ c hc
  · simp only [if_neg h] at hc
    exact natCharsAux_printable _ _ c hc

theorem hex4_printable {n : Nat} (h : n < 0x10000) :
    ∀ c ∈ hex4 n, 0x20 ≤ c.toNat ∧ c.toNat ≤ 0x7e := by
  intro c hc
  simp only [hex4, List.mem_cons, List.not_mem_nil, or_false] at hc
  rcases hc with rfl | rfl | rfl | rfl
  · exact hexDigitL_printable (by omega)
  · exact hexDigitL_printable (Nat.mod_lt _ (by omega))
  · exact hexDigitL_printable (Nat.mod_lt _ (by omega))
  · exact hexDigitL_printable (Nat.mod_lt _ (by omega))

theorem escChar_printable (c : Char) :
    ∀ x ∈ escChar c, 0x20 ≤ x.toNat ∧ x.toNat ≤ 0x7e := by
  unfold escChar
  split_ifs with h1 h2 h3 h4 h5 h6 h7 h8 h9
  · decide
  · decide
  · decide
  · decide
  · decide
  · decide
  · decide
  · intro x hx
    rw [List.mem_singleton] at hx
    subst hx
    exact h8
  · exact List.forall_mem_cons.mpr ⟨by decide,
      List.forall_mem_cons.mpr ⟨by decide, hex4_printable h9⟩⟩
  · have hc := char_lt_uni c
    refine List.forall_mem_append.mpr ⟨?_, ?_⟩
    · exact List.forall_mem_cons.mpr ⟨by decide,
        List.forall_mem_cons.mpr ⟨by decide, hex4_printable (by omega)⟩⟩
    · exact List.forall_mem_cons.mpr ⟨by decide,
        List.forall_mem_cons.mpr ⟨by decide, hex4_printable (by omega)⟩⟩

theorem escAll_printable (s : List Char) :
    ∀ x ∈ escAll s, 0x20 ≤ x.toNat ∧ x.toNat ≤ 0x7e := by
  induction s with
  | nil => simp [escAll]
  | cons c t ih =>
    intro x hx
    simp only [escAll, List.mem_append] at hx
    rcases hx with hx | hx
    · exact escChar_printable c x hx
    · exact ih x hx

theorem escStr_printable (s : List Char) :
    ∀ x ∈ escStr s, 0x20 ≤ x.toNat ∧ x.toNat ≤ 0x7e := by
  simp only [escStr, List.cons_append]
  exact List.forall_mem_cons.mpr ⟨by decide,
    List.forall_mem_append.mpr ⟨escAll_printable s, by decide⟩⟩

mutual
theorem dumps_printable : ∀ j : Json, ∀ c ∈ dumps j, 0x20 ≤ c.toNat ∧ c.toNat ≤ 0x7e
  | .null => by decide
  | .bool true => by decide
  | .bool false => by decide
  | .num n => intChars_printable n
  | .str s => escStr_printable s
  | .arr .nil => by decide
  | .arr (.cons h t) => by
    simp only [dumps, List.cons_append, List.append_assoc]
    refine List.forall_mem_cons.mpr ⟨by decide, ?_⟩
    refine List.forall_mem_append.mpr ⟨dumps_printable h, ?_⟩
    exact List.forall_mem_append.mpr ⟨dumpsElems_printable t, by decide⟩
  | .obj .nil => by decide
  | .obj (.cons k v t) => by
    simp only [dumps, List.cons_append, List.append_assoc]
    refine List.forall_mem_cons.mpr ⟨by decide, ?_⟩
    refine List.forall_mem_append.mpr ⟨escStr_printable k, ?_⟩
    refine List.forall_mem_cons.mpr ⟨by decide, List.forall_mem_cons.mpr ⟨by decide, ?_⟩⟩
    refine List.forall_mem_append.mpr ⟨dumps_printable v, ?_⟩
    exact List.forall_mem_append.mpr ⟨dumpsMembers_printable t, by decide⟩

theorem dumpsElems_printable :
    ∀ l : JsonList, ∀ c ∈ dumpsElems l, 0x20 ≤ c.toNat ∧ c.toNat ≤ 0x7e
  | .nil => by decide
  | .cons h t => by
    simp only [dumpsElems, List.cons_append, List.append_assoc]
    refine List.forall_mem_cons.mpr ⟨by decide, List.forall_mem_cons.mpr ⟨by decide, ?_⟩⟩
    exact List.forall_mem_append.mpr ⟨dumps_printable h, dumpsElems_printable t⟩

theorem dumpsMembers_printable :
    ∀ o : JsonObj, ∀ c ∈ dumpsMembers o, 0x20 ≤ c.toNat ∧ c.toNat ≤ 0x7e
  | .nil => by decide
  | .cons k v t => by
    simp only [dumpsMembers, List.cons_append, List.append_assoc]
    refine List.forall_mem_cons.mpr ⟨by decide, List.forall_mem_cons.mpr ⟨by decide, ?_⟩⟩
    refine List.forall_mem_append.mpr ⟨escStr_printable k, ?_⟩
    refine List.forall_mem_cons.mpr ⟨by decide, List.forall_mem_cons.mpr ⟨by decide, ?_⟩⟩
    exact List.forall_mem_append.mpr ⟨dumps_printable v, dumpsMembers_printable t⟩
end

theorem utf8Char_ascii {c : Char} (h : c.toNat < 0x80) : utf8Char c = [c.toNat] := by
  simp [utf8Char, h]

theorem utf8Str_ascii {s : List Char} (h : ∀ c ∈ s, c.toNat < 0x80) :
    utf8Str s = s.map Char.toNat := by
  induction s with
  | nil => rfl
  | cons c t ih =>
    simp only [utf8Str, List.map_cons]
    rw [utf8Char_ascii (h c (List.mem_cons_self c t)),
      ih (fun x hx => h x (List.mem_cons_of_mem c hx))]
    rfl

theorem utf8Str_len_ascii {s : List Char} (h : ∀ c ∈ s, c.toNat < 0x80) :
    (utf8Str s).length = s.length := by
  rw [utf8Str_ascii h, List.length_map]

/-- Claim C6: `_send` emits `Content-Length: <N>\r\n\r\n` immediately
followed by exactly `N` bytes of UTF-8-encoded JSON body, where `N`
equals the body's exact byte count — `json.dumps`'s default
`ensure_ascii` escaping makes every body character printable ASCII, so
the character count the code writes equals the byte count, including for
messages whose params contain non-ASCII characters. -/
theorem c6_content_length_is_byte_length (msg : Json) :
    sendBytes msg
      = utf8Str (sContentLengthSp ++ natChars ((utf8Str (dumps msg)).length) ++ crlfcrlf)
        ++ utf8Str (dumps msg)
    ∧ (utf8Str (dumps msg)).length = (dumps msg).length
    ∧ ∀ c ∈ dumps msg, 0x20 ≤ c.toNat ∧ c.toNat ≤ 0x7e := by
  have hascii := dumps_printable msg
  have hlen : (utf8Str (dumps msg)).length = (dumps msg).length :=
    utf8Str_len_ascii (fun c hc => by have := hascii c hc; omega)
  refine ⟨?_, hlen, hascii⟩
  unfold sendBytes
  rw [hlen]

/-! ## Claim C7: decimal digits read back -/

theorem natCharsAux_fuel : ∀ n f1 f2 : Nat, n < f1 → n < f2 →
    natCharsAux f1 n = natCharsAux f2 n := by
  intro n
  induction n using Nat.strong_induction_on with
  | _ n ih =>
    intro f1 f2 h1 h2
    cases f1 with
    | zero => omega
    | succ g1 =>
      cases f2 with
      | zero => omega
      | succ g2 =>
        simp only [natCharsAux]
        by_cases h : n < 10
        · simp [h]
        · simp only [if_neg h]
          rw [ih (n / 10) (by omega) g1 g2 (by omega) (by omega)]

theorem natChars_unfold (n : Nat) :
    natChars n = if n < 10 then [digitChar10 n]
      else natChars (n / 10) ++ [digitChar10 (n % 10)] := by
  by_cases h : n < 10
  · simp [natChars, natCharsAux, h]
  · rw [if_neg h]
    unfold natChars
    have h1 : natCharsAux (n + 1) n = natCharsAux n (n / 10) ++ [digitChar10 (n % 10)] := by
      simp only [natCharsAux]
      rw [if_neg h]
    rw [h1, natCharsAux_fuel (n / 10) n (n / 10 + 1) (by omega) (by omega)]

theorem digitChar10_toNat {d : Nat} (h : d < 10) : (digitChar10 d).toNat = 48 + d := by
  interval_cases d <;> decide

theorem isDigit10_digitChar10 {d : Nat} (h : d < 10) : isDigit10 (digitChar10 d) = true := by
  interval_cases d <;> decide

theorem natChars_digits (n : Nat) : ∀ c ∈ natChars n, isDigit10 c = true := by
  induction n using Nat.strong_induction_on with
  | _ n ih =>
    rw [natChars_unfold]
    by_cases h : n < 10
    · intro c hc
      rw [if_pos h, List.mem_singleton] at hc
      subst hc
      exact isDigit10_digitChar10 h
    · intro c hc
      rw [if_neg h] at hc
      rcases List.mem_append.mp hc with hc | hc
      · exact ih (n / 10) (by omega) c hc
      · rw [List.mem_singleton] at hc
        subst hc
        exact isDigit10_digitChar10 (Nat.mod_lt _ (by omega))

theorem natChars_foldl (n : Nat) : ∀ acc : Nat,
    (natChars n).foldl (fun a c => a * 10 + (c.toNat - 48)) acc
      = acc * 10 ^ (natChars n).length + n := by
  induction n using Nat.strong_induction_on with
  | _ n ih =>
    intro acc
    rw [natChars_unfold]
    by_cases h : n < 10
    · simp only [if_pos h, List.foldl_cons, List.foldl_nil, List.length_singleton]
      rw [digitChar10_toNat h, pow_one]
      omega
    · simp only [if_neg h, List.foldl_append, List.foldl_cons, List.foldl_nil,
        List.length_append, List.length_singleton]
      rw [ih (n / 10) (by omega) acc, digitChar10_toNat (Nat.mod_lt _ (by omega))]
      have h48 : acc * 10 ^ (natChars (n / 10)).length + n / 10 ≥ 0 := by omega
      calc (acc * 10 ^ (natChars (n / 10)).length + n / 10) * 10 + (48 + n % 10 - 48)
          = acc * (10 ^ (natChars (n / 10)).length * 10) + (10 * (n / 10) + n % 10) := by
            have : 48 + n % 10 - 48 = n % 10 := by omega
            rw [this]; ring
        _ = acc * 10 ^ ((natChars (n / 10)).length + 1) + n := by
            rw [Nat.div_add_mod, pow_succ]

theorem natChars_val (n : Nat) :
    (natChars n).foldl (fun a c => a * 10 + (c.toNat - 48)) 0 = n := by
  rw [natChars_foldl]
  simp

theorem natChars_ne_nil (n : Nat) : natChars n ≠ [] := by
  rw [natChars_unfold]
  by_cases h : n < 10 <;> simp [h]

theorem natChars_head_pos : ∀ n : Nat, 1 ≤ n →
    ∃ c cs, natChars n = c :: cs ∧ isDigit10 c = true ∧ c ≠ '0' := by
  intro n
  induction n using Nat.strong_induction_on with
  | _ n ih =>
    intro hn
    rw [natChars_unfold]
    by_cases h : n < 10
    · refine ⟨digitChar10 n, [], by simp [h], isDigit10_digitChar10 h, ?_⟩
      interval_cases n <;> decide
    · obtain ⟨c, cs, hc, hd, h0⟩ := ih (n / 10) (by omega) (by omega)
      exact ⟨c, cs ++ [digitChar10 (n % 10)], by simp [if_neg h, hc], hd, h0⟩

theorem digMunch_digits : ∀ ds : List Char, (∀ c ∈ ds, isDigit10 c = true) →
    ∀ acc : Nat, ∀ rest : List Char, numBoundary rest = true →
      digMunch acc (ds ++ rest)
        = (ds.foldl (fun a c => a * 10 + (c.toNat - 48)) acc, rest) := by
  intro ds
  induction ds with
  | nil =>
    intro _ acc rest hb
    cases rest with
    | nil => rfl
    | cons c r =>
      simp only [numBoundary, Bool.and_eq_true, Bool.not_eq_true'] at hb
      simp [digMunch, hb.1.1.1]
  | cons c t ih =>
    intro hd acc rest hb
    have hc := hd c (List.mem_cons_self c t)
    simp only [List.cons_append, digMunch, hc, if_pos, List.foldl_cons]
    exact ih (fun x hx => hd x (List.mem_cons_of_mem c hx)) _ rest hb

theorem floatFollows_of_boundary {rest : List Char} (hb : numBoundary rest = true) :
    floatFollows rest = false := by
  cases rest with
  | nil => rfl
  | cons c r =>
    simp only [numBoundary, Bool.and_eq_true, Bool.not_eq_true'] at hb
    simp only [floatFollows, hb.1.1.2, hb.1.2, hb.2, Bool.or_self, decide_eq_false]
    simp [hb.1.1.2, hb.1.2, hb.2]

theorem parseNat_natChars (m : Nat) (rest : List Char) (hb : numBoundary rest = true) :
    parseNat (natChars m ++ rest) = some (m, rest) := by
  have hff : floatFollows rest = false := floatFollows_of_boundary hb
  by_cases hm : m = 0
  · subst hm
    rw [show natChars 0 = ['0'] from by decide]
    simp [parseNat, hff]
  · obtain ⟨c, cs, hc, hd, h0⟩ := natChars_head_pos m (by omega)
    have hval := natChars_val m
    have hdigs := natChars_digits m
    rw [hc] at hval hdigs
    rw [hc]
    simp only [List.cons_append]
    rw [parseNat.eq_def]
    split
    next r heq =>
      rw [List.cons.injEq] at heq
      exact absurd heq.1 h0
    next c' r heq =>
      rw [List.cons.injEq] at heq
      obtain ⟨he1, he2⟩ := heq
      subst he1
      subst he2
      rw [if_pos hd]
      have hmun := digMunch_digits cs (fun x hx => hdigs x (List.mem_cons_of_mem c hx))
        (c.toNat - 48) rest hb
      simp only [hmun]
      rw [List.foldl_cons] at hval
      have hv0 : cs.foldl (fun a x => a * 10 + (x.toNat - 48)) (c.toNat - 48) = m := by
        have : 0 * 10 + (c.toNat - 48) = c.toNat - 48 := by omega
        rw [this] at hval
        exact hval
      rw [hv0, hff]
      simp
    next heq =>
      simp at heq

/-! ## Claim C7: string escapes read back -/

theorem hexVal_hexDigitL {d : Nat} (h : d < 16) : hexVal (hexDigitL d) = some d := by
  interval_cases d <;> decide

theorem hex4Val_hex4 {n : Nat} (h : n < 0x10000) :
    hex4Val (hexDigitL (n / 4096)) (hexDigitL (n / 256 % 16)) (hexDigitL (n / 16 % 16))
      (hexDigitL (n % 16)) = some n := by
  simp only [hex4Val, hexVal_hexDigitL (show n / 4096 < 16 by omega),
    hexVal_hexDigitL (show n / 256 % 16 < 16 from Nat.mod_lt _ (by omega)),
    hexVal_hexDigitL (show n / 16 % 16 < 16 from Nat.mod_lt _ (by omega)),
    hexVal_hexDigitL (show n % 16 < 16 from Nat.mod_lt _ (by omega))]
  congr 1
  omega

theorem escChar_len_pos (c : Char) : 1 ≤ (escChar c).length := by
  unfold escChar
  split_ifs <;> simp

set_option maxHeartbeats 1600000 in
theorem parseStrAux_usurr (f : Nat) (acc : List Char) (a b c2 d a2 b2 c3 d2 : Char)
    (r2 : List Char) (hi lo : Nat)
    (hhi : hex4Val a b c2 d = some hi) (hlo : hex4Val a2 b2 c3 d2 = some lo)
    (h1 : 0xd800 ≤ hi) (h2 : hi ≤ 0xdbff) (h3 : 0xdc00 ≤ lo) (h4 : lo ≤ 0xdfff) :
    parseStrAux (f + 1) acc
        ('\\' :: 'u' :: a :: b :: c2 :: d :: '\\' :: 'u' :: a2 :: b2 :: c3 :: d2 :: r2)
      = parseStrAux f (Char.ofNat (0x10000 + (hi - 0xd800) * 0x400 + (lo - 0xdc00)) :: acc) r2 := by
  simp only [parseStrAux, hhi, hlo]
  rw [if_pos trivial, if_pos (And.intro h1 h2), if_pos (And.intro h3 h4), if_neg (by decide)]

set_option maxHeartbeats 1600000 in
theorem parseStrAux_esc : ∀ (k : List Char) (fuel : Nat) (acc rest : List Char),
    (escAll k).length < fuel →
    parseStrAux fuel acc (escAll k ++ '"' :: rest) = some (acc.reverse ++ k, rest) := by
  intro k
  induction k with
  | nil =>
    intro fuel acc rest hf
    cases fuel with
    | zero => omega
    | succ f => simp [escAll, parseStrAux]
  | cons c t ih =>
    intro fuel acc rest hf
    cases fuel with
    | zero => omega
    | succ f =>
      have hlen : (escAll t).length < f := by
        have h1 := escChar_len_pos c
        have h2 : (escAll (c :: t)).length = (escChar c).length + (escAll t).length := by
          simp [escAll]
        omega
      simp only [escAll, List.append_assoc]
      unfold escChar
      split_ifs with h1 h2 h3 h4 h5 h6 h7 h8 h9
      · subst h1
        simp [parseStrAux, List.cons_append, ih f ('"' :: acc) rest hlen]
      · subst h2
        simp [parseStrAux, List.cons_append, ih f ('\\' :: acc) rest hlen]
      · subst h3
        simp [parseStrAux, List.cons_append, ih f ('\x08' :: acc) rest hlen]
      · subst h4
        simp [parseStrAux, List.cons_append, ih f ('\x0c' :: acc) rest hlen]
      · subst h5
        simp [parseStrAux, List.cons_append, ih f ('\n' :: acc) rest hlen]
      · subst h6
        simp [parseStrAux, List.cons_append, ih f ('\r' :: acc) rest hlen]
      · subst h7
        simp [parseStrAux, List.cons_append, ih f ('\t' :: acc) rest hlen]
      · -- printable literal
        simp only [List.cons_append, List.nil_append, parseStrAux]
        rw [if_neg h1, if_neg h2, if_neg (show ¬ c.toNat < 0x20 by omega)]
        rw [ih f (c :: acc) rest hlen]
        simp
      · -- BMP \uXXXX escape
        have hsur := char_not_surrogate c
        have hns := eq_false (show ¬ (0xd800 ≤ c.toNat ∧ c.toNat ≤ 0xdbff) by omega)
        simp [parseStrAux, hex4, List.cons_append, hex4Val_hex4 h9, hns,
          Char.ofNat_toNat, ih f (c :: acc) rest hlen]
      · -- surrogate pair
        have hcu := char_lt_uni c
        have harg : (0x10000 : Nat)
            + (0xd800 + (c.toNat - 0x10000) / 0x400 - 0xd800) * 0x400
            + (0xdc00 + (c.toNat - 0x10000) % 0x400 - 0xdc00) = c.toNat := by
          omega
        simp only [hex4, List.cons_append, List.nil_append]
        rw [parseStrAux_usurr f acc _ _ _ _ _ _ _ _ _ _ _
          (hex4Val_hex4 (show 0xd800 + (c.toNat - 0x10000) / 0x400 < 0x10000 by omega))
          (hex4Val_hex4 (show 0xdc00 + (c.toNat - 0x10000) % 0x400 < 0x10000 by omega))
          (by omega) (by omega) (by omega) (by omega)]
        rw [harg, Char.ofNat_toNat]
        rw [ih f (c :: acc) rest hlen]
        simp

/-! ## Claim C7: `loads` inverts `dumps` -/

theorem isDigit10_ne {c : Char} (x : Char) (h : isDigit10 c = true)
    (hx : isDigit10 x = false) : c ≠ x := by
  intro hc
  subst hc
  rw [h] at hx
  exact Bool.noConfusion hx

theorem isWsChar_false_of_digit {c : Char} (h : isDigit10 c = true) : isWsChar c = false := by
  cases hw : isWsChar c with
  | false => rfl
  | true =>
    simp only [isWsChar, Bool.or_eq_true, decide_eq_true_eq] at hw
    rcases hw with rfl | rfl | rfl | rfl <;> exact absurd h (by decide)

theorem natChars_head_digit (m : Nat) :
    ∃ c cs, natChars m = c :: cs ∧ isDigit10 c = true := by
  by_cases h : m = 0
  · subst h
    exact ⟨'0', [], by decide, by decide⟩
  · obtain ⟨c, cs, hc, hd, _⟩ := natChars_head_pos m (by omega)
    exact ⟨c, cs, hc, hd⟩

/-- Every dumped value starts with a non-whitespace character that is not
a closing bracket or brace. -/
theorem dumps_head (j : Json) : ∃ c cs, dumps j = c :: cs
    ∧ isWsChar c = false ∧ c ≠ ']' ∧ c ≠ '\x7d' := by
  have hgood : ∀ c : Char, c ∈ [ 'n', 't', 'f', '"', '[', '\x7b', '-' ] →
      isWsChar c = false ∧ c ≠ ']' ∧ c ≠ '\x7d' := by decide
  cases j with
  | null => exact ⟨'n', _, rfl, hgood 'n' (by decide)⟩
  | bool b =>
    cases b with
    | true => exact ⟨'t', _, rfl, hgood 't' (by decide)⟩
    | false => exact ⟨'f', _, rfl, hgood 'f' (by decide)⟩
  | num n =>
    simp only [dumps, intChars]
    by_cases h : n < 0
    · rw [if_pos h]
      exact ⟨'-', _, rfl, hgood '-' (by decide)⟩
    · rw [if_neg h]
      obtain ⟨c, cs, hc, hd⟩ := natChars_head_digit n.toNat
      exact ⟨c, cs, hc, isWsChar_false_of_digit hd,
        isDigit10_ne _ hd (by decide), isDigit10_ne _ hd (by decide)⟩
  | str s => exact ⟨'"', _, rfl, hgood '"' (by decide)⟩
  | arr xs =>
    cases xs with
    | nil => exact ⟨'[', _, rfl, hgood '[' (by decide)⟩
    | cons h t => exact ⟨'[', _, rfl, hgood '[' (by decide)⟩
  | obj kvs =>
    cases kvs with
    | nil => exact ⟨'\x7b', _, rfl, hgood '\x7b' (by decide)⟩
    | cons k v t => exact ⟨'\x7b', _, rfl, hgood '\x7b' (by decide)⟩

theorem skipWs_cons_not {c : Char} (r : List Char) (h : isWsChar c = false) :
    skipWs (c :: r) = c :: r := by
  simp [skipWs, h]

theorem skipWs_space (xs : List Char) : skipWs (' ' :: xs) = skipWs xs := by
  simp [skipWs, isWsChar]

theorem skipWs_dumps (j : Json) (xs : List Char) :
    skipWs (dumps j ++ xs) = dumps j ++ xs := by
  obtain ⟨c, cs, hc, hw, _, _⟩ := dumps_head j
  rw [hc, List.cons_append, skipWs_cons_not _ hw]

theorem numBoundary_elems (t : JsonList) (rest : List Char) :
    numBoundary (dumpsElems t ++ ']' :: rest) = true := by
  cases t <;> simp [dumpsElems, numBoundary] <;> decide

theorem numBoundary_members (t : JsonObj) (rest : List Char) :
    numBoundary (dumpsMembers t ++ '\x7d' :: rest) = true := by
  cases t <;> simp [dumpsMembers, numBoundary, escStr] <;> decide

mutual
theorem sizeJ_le_dumps : ∀ j : Json, sizeJ j ≤ (dumps j).length
  | .null => by simp [sizeJ, dumps]
  | .bool b => by cases b <;> simp [sizeJ, dumps]
  | .num n => by
    simp only [sizeJ, dumps]
    have h : intChars n ≠ [] := by
      unfold intChars
      split_ifs
      · simp
      · exact natChars_ne_nil _
    have := List.length_pos.mpr h
    omega
  | .str s => by
    simp only [sizeJ, dumps, escStr]
    simp
  | .arr .nil => by simp [sizeJ, sizeL, dumps]
  | .arr (.cons h t) => by
    have h1 := sizeJ_le_dumps h
    have h2 := sizeL_le_dumpsElems t
    simp only [sizeJ, sizeL, dumps, List.cons_append]
    simp [List.length_append]
    omega
  | .obj .nil => by simp [sizeJ, sizeO, dumps]
  | .obj (.cons k v t) => by
    have h1 := sizeJ_le_dumps v
    have h2 := sizeO_le_dumpsMembers t
    simp only [sizeJ, sizeO, dumps, escStr, List.cons_append]
    simp [List.length_append]
    omega

theorem sizeL_le_dumpsElems : ∀ l : JsonList, sizeL l ≤ (dumpsElems l).length
  | .nil => by simp [sizeL, dumpsElems]
  | .cons h t => by
    have h1 := sizeJ_le_dumps h
    have h2 := sizeL_le_dumpsElems t
    simp [sizeL, dumpsElems, List.length_append]
    omega

theorem sizeO_le_dumpsMembers : ∀ o : JsonObj, sizeO o ≤ (dumpsMembers o).length
  | .nil => by simp [sizeO, dumpsMembers]
  | .cons k v t => by
    have h1 := sizeJ_le_dumps v
    have h2 := sizeO_le_dumpsMembers t
    simp [sizeO, dumpsMembers, escStr, List.length_append]
    omega
end


set_option maxHeartbeats 1600000 in
theorem parseVal_digit (f : Nat) (c : Char) (r : List Char) (hd : isDigit10 c = true) :
    parseVal (f + 1) (c :: r)
      = (match parseNat (c :: r) with
         | some (m, r2) => some (.num (m : Int), r2)
         | none => none) := by
  have h1 : c ≠ 'n' := isDigit10_ne _ hd (by decide)
  have h2 : c ≠ 't' := isDigit10_ne _ hd (by decide)
  have h3 : c ≠ 'f' := isDigit10_ne _ hd (by decide)
  have h4 : c ≠ '"' := isDigit10_ne _ hd (by decide)
  have h5 : c ≠ '[' := isDigit10_ne _ hd (by decide)
  have h6 : c ≠ '\x7b' := isDigit10_ne _ hd (by decide)
  have h7 : c ≠ '-' := isDigit10_ne _ hd (by decide)
  rw [parseVal.eq_def]
  split
  next heq => omega
  next a b fuel heq =>
    have hf : fuel = f := by omega
    subst hf
    split
    next r2 heq2 => rw [List.cons.injEq] at heq2; exact absurd heq2.1 h1
    next r2 heq2 => rw [List.cons.injEq] at heq2; exact absurd heq2.1 h2
    next r2 heq2 => rw [List.cons.injEq] at heq2; exact absurd heq2.1 h3
    next r2 heq2 => rw [List.cons.injEq] at heq2; exact absurd heq2.1 h4
    next r2 heq2 => rw [List.cons.injEq] at heq2; exact absurd heq2.1 h5
    next r2 heq2 => rw [List.cons.injEq] at heq2; exact absurd heq2.1 h6
    next r2 heq2 => rw [List.cons.injEq] at heq2; exact absurd heq2.1 h7
    next c2 r2 heq2 =>
      rw [List.cons.injEq] at heq2
      obtain ⟨e1, e2⟩ := heq2
      subst e1
      subst e2
      rw [if_pos hd]
    next heq2 => exact absurd heq2 (by simp)


theorem sizeJ_pos (j : Json) : 1 ≤ sizeJ j := by
  cases j <;> simp [sizeJ]

set_option maxHeartbeats 3200000 in
mutual
theorem parseVal_dumps : ∀ j : Json, ∀ fuel rest, sizeJ j ≤ fuel → numBoundary rest = true →
    parseVal fuel (dumps j ++ rest) = some (j, rest)
  | .null => by
    intro fuel rest hs hb
    cases fuel with
    | zero => simp [sizeJ] at hs
    | succ f => simp [dumps, parseVal]
  | .bool true => by
    intro fuel rest hs hb
    cases fuel with
    | zero => simp [sizeJ] at hs
    | succ f => simp [dumps, parseVal]
  | .bool false => by
    intro fuel rest hs hb
    cases fuel with
    | zero => simp [sizeJ] at hs
    | succ f => simp [dumps, parseVal]
  | .num n => by
    intro fuel rest hs hb
    cases fuel with
    | zero => simp [sizeJ] at hs
    | succ f =>
      by_cases hneg : n < 0
      · have hstep : dumps (.num n) = '-' :: natChars (-n).toNat := by
          simp [dumps, intChars, hneg]
        rw [hstep, List.cons_append]
        simp only [parseVal]
        rw [parseNat_natChars (-n).toNat rest hb]
        have hcast : (((-n).toNat : Nat) : Int) = -n := Int.toNat_of_nonneg (by omega)
        simp [hcast]
      · have h0 : (0 : Int) ≤ n := by omega
        have hstep : dumps (.num n) = natChars n.toNat := by
          simp [dumps, intChars, hneg]
        obtain ⟨c, cs, hc, hd⟩ := natChars_head_digit n.toNat
        rw [hstep, hc, List.cons_append, parseVal_digit f c (cs ++ rest) hd,
          ← List.cons_append, ← hc, parseNat_natChars n.toNat rest hb]
        simp [Int.toNat_of_nonneg h0]
  | .str s => by
    intro fuel rest hs hb
    cases fuel with
    | zero => simp [sizeJ] at hs
    | succ f =>
      have hshape : dumps (.str s) ++ rest = '"' :: (escAll s ++ '"' :: rest) := by
        simp [dumps, escStr]
      rw [hshape]
      simp only [parseVal]
      rw [parseStrAux_esc s ((escAll s ++ '"' :: rest).length + 1) [] rest
        (by simp [List.length_append]; omega)]
      simp
  | .arr .nil => by
    intro fuel rest hs hb
    cases fuel with
    | zero => simp [sizeJ] at hs
    | succ f =>
      have hshape : dumps (.arr .nil) ++ rest = '[' :: ']' :: rest := by simp [dumps]
      rw [hshape]
      simp [parseVal, skipWs, isWsChar]
  | .arr (.cons h t) => by
    intro fuel rest hs hb
    cases fuel with
    | zero => simp [sizeJ] at hs
    | succ f =>
      have hsz : sizeL (.cons h t) + 1 ≤ f := by
        simp only [sizeJ] at hs
        omega
      have hshape : dumps (.arr (.cons h t)) ++ rest
          = '[' :: (dumpsInner (.cons h t) ++ ']' :: rest) := by
        simp [dumps, dumpsInner, List.append_assoc]
      rw [hshape]
      simp only [parseVal]
      have hsk : skipWs (dumpsInner (.cons h t) ++ ']' :: rest)
          = dumpsInner (.cons h t) ++ ']' :: rest := by
        simp only [dumpsInner, List.append_assoc]
        exact skipWs_dumps h _
      rw [hsk]
      obtain ⟨c, cs, hc, hw, hrb, hob⟩ := dumps_head h
      have hform : dumpsInner (.cons h t) ++ ']' :: rest
          = c :: (cs ++ (dumpsElems t ++ ']' :: rest)) := by
        simp [dumpsInner, hc, List.append_assoc]
      rw [hform]
      split
      next r2 heq =>
        rw [List.cons.injEq] at heq
        exact absurd heq.1 hrb
      next r2 heq =>
        rw [← hform, parseElems_dumps (.cons h t) f rest hsz]
  | .obj .nil => by
    intro fuel rest hs hb
    cases fuel with
    | zero => simp [sizeJ] at hs
    | succ f =>
      have hshape : dumps (.obj .nil) ++ rest = '\x7b' :: '\x7d' :: rest := by simp [dumps]
      rw [hshape]
      simp [parseVal, skipWs, isWsChar]
  | .obj (.cons k v t) => by
    intro fuel rest hs hb
    cases fuel with
    | zero => simp [sizeJ] at hs
    | succ f =>
      have hsz : sizeO (.cons k v t) + 1 ≤ f := by
        simp only [sizeJ] at hs
        omega
      have hshape : dumps (.obj (.cons k v t)) ++ rest
          = '\x7b' :: (dumpsInnerO (.cons k v t) ++ '\x7d' :: rest) := by
        simp [dumps, dumpsInnerO, escStr, List.append_assoc]
      rw [hshape]
      simp only [parseVal]
      have hsk : skipWs (dumpsInnerO (.cons k v t) ++ '\x7d' :: rest)
          = dumpsInnerO (.cons k v t) ++ '\x7d' :: rest := by
        simp only [dumpsInnerO, escStr, List.cons_append, List.append_assoc]
        exact skipWs_cons_not _ (by decide)
      rw [hsk]
      have hform : dumpsInnerO (.cons k v t) ++ '\x7d' :: rest
          = '"' :: ((escAll k ++ ['"']) ++ (':' :: ' ' :: dumps v ++ dumpsMembers t ++ '\x7d' :: rest)) := by
        simp [dumpsInnerO, escStr, List.append_assoc]
      rw [hform]
      split
      next r2 heq =>
        rw [List.cons.injEq] at heq
        exact absurd heq.1 (by decide)
      next r2 heq =>
        rw [← hform, parseMembers_dumps (.cons k v t) f rest hsz]

theorem parseElems_dumps : ∀ l : JsonList, ∀ fuel rest, sizeL l + 1 ≤ fuel →
    parseElems fuel (dumpsInner l ++ ']' :: rest)
      = (match l with
         | .nil => none
         | .cons h t => some (JsonList.cons h t, rest))
  | .nil => by
    intro fuel rest hs
    cases fuel with
    | zero => omega
    | succ g =>
      simp only [dumpsInner, List.nil_append]
      cases g with
      | zero => simp [parseElems, parseVal]
      | succ g2 => simp [parseElems, parseVal, isDigit10]
  | .cons h t => by
    intro fuel rest hs
    cases fuel with
    | zero => omega
    | succ g =>
      have hszh : sizeJ h ≤ g := by
        simp only [sizeL] at hs
        omega
      simp only [dumpsInner, List.append_assoc, parseElems]
      rw [parseVal_dumps h g (dumpsElems t ++ ']' :: rest) hszh (numBoundary_elems t rest)]
      cases t with
      | nil => simp [dumpsElems, skipWs, isWsChar]
      | cons h2 t2 =>
        have hsz2 : sizeL (.cons h2 t2) + 1 ≤ g := by
          have hp := sizeJ_pos h
          simp only [sizeL] at hs ⊢
          omega
        have hshape2 : dumpsElems (.cons h2 t2) ++ ']' :: rest
            = ',' :: ' ' :: (dumpsInner (.cons h2 t2) ++ ']' :: rest) := by
          simp [dumpsElems, dumpsInner, List.append_assoc]
        have hq1 : skipWs (',' :: ' ' :: (dumpsInner (JsonList.cons h2 t2) ++ ']' :: rest))
            = ',' :: ' ' :: (dumpsInner (JsonList.cons h2 t2) ++ ']' :: rest) :=
          skipWs_cons_not _ (by decide)
        have hq2 : skipWs (' ' :: (dumpsInner (JsonList.cons h2 t2) ++ ']' :: rest))
            = dumpsInner (JsonList.cons h2 t2) ++ ']' :: rest := by
          rw [skipWs_space]
          simp only [dumpsInner, List.append_assoc]
          exact skipWs_dumps h2 _
        rw [hshape2]
        simp only [hq1, hq2, parseElems_dumps (JsonList.cons h2 t2) g rest hsz2]

theorem parseMembers_dumps : ∀ o : JsonObj, ∀ fuel rest, sizeO o + 1 ≤ fuel →
    parseMembers fuel (dumpsInnerO o ++ '\x7d' :: rest)
      = (match o with
         | .nil => none
         | .cons k v t => some (JsonObj.cons k v t, rest))
  | .nil => by
    intro fuel rest hs
    cases fuel with
    | zero => omega
    | succ g => simp [dumpsInnerO, parseMembers]
  | .cons k v t => by
    intro fuel rest hs
    cases fuel with
    | zero => omega
    | succ g =>
      have hszv : sizeJ v ≤ g := by
        simp only [sizeO] at hs
        omega
      have hshape : dumpsInnerO (.cons k v t) ++ '\x7d' :: rest
          = '"' :: (escAll k ++ '"' :: (':' :: ' ' :: (dumps v ++ (dumpsMembers t ++ '\x7d' :: rest)))) := by
        simp [dumpsInnerO, escStr, List.append_assoc]
      rw [hshape]
      simp only [parseMembers]
      rw [parseStrAux_esc k ((escAll k ++ '"' :: (':' :: ' ' :: (dumps v ++ (dumpsMembers t ++ '\x7d' :: rest)))).length + 1)
        [] _ (by simp [List.length_append]; omega)]
      simp only [List.reverse_nil, List.nil_append]
      have hq0 : skipWs (':' :: ' ' :: (dumps v ++ (dumpsMembers t ++ '\x7d' :: rest)))
          = ':' :: ' ' :: (dumps v ++ (dumpsMembers t ++ '\x7d' :: rest)) :=
        skipWs_cons_not _ (by decide)
      have hq1 : skipWs (' ' :: (dumps v ++ (dumpsMembers t ++ '\x7d' :: rest)))
          = dumps v ++ (dumpsMembers t ++ '\x7d' :: rest) := by
        rw [skipWs_space]
        exact skipWs_dumps v _
      simp only [hq0, hq1, parseVal_dumps v g _ hszv (numBoundary_members t rest)]
      cases t with
      | nil => simp [dumpsMembers, skipWs, isWsChar]
      | cons k2 v2 t2 =>
        have hsz2 : sizeO (.cons k2 v2 t2) + 1 ≤ g := by
          have hp := sizeJ_pos v
          simp only [sizeO] at hs ⊢
          omega
        have hshape2 : dumpsMembers (.cons k2 v2 t2) ++ '\x7d' :: rest
            = ',' :: ' ' :: (dumpsInnerO (.cons k2 v2 t2) ++ '\x7d' :: rest) := by
          simp [dumpsMembers, dumpsInnerO, escStr, List.append_assoc]
        have hq2 : skipWs (',' :: ' ' :: (dumpsInnerO (JsonObj.cons k2 v2 t2) ++ '\x7d' :: rest))
            = ',' :: ' ' :: (dumpsInnerO (JsonObj.cons k2 v2 t2) ++ '\x7d' :: rest) :=
          skipWs_cons_not _ (by decide)
        have hq3 : skipWs (' ' :: (dumpsInnerO (JsonObj.cons k2 v2 t2) ++ '\x7d' :: rest))
            = dumpsInnerO (JsonObj.cons k2 v2 t2) ++ '\x7d' :: rest := by
          rw [skipWs_space]
          simp only [dumpsInnerO, escStr, List.cons_append, List.append_assoc]
          exact skipWs_cons_not _ (by decide)
        rw [hshape2]
        simp only [hq2, hq3, parseMembers_dumps (JsonObj.cons k2 v2 t2) g rest hsz2]
end

theorem loads_dumps (j : Json) : loads (dumps j) = some j := by
  have hsk : skipWs (dumps j) = dumps j := by
    have h := skipWs_dumps j []
    simpa using h
  have hsz : sizeJ j ≤ (dumps j).length + 1 :=
    Nat.le_succ_of_le (sizeJ_le_dumps j)
  have hnb : numBoundary ([] : List Char) = true := rfl
  have hv := parseVal_dumps j ((dumps j).length + 1) [] hsz hnb
  simp only [List.append_nil] at hv
  simp only [loads, hsk, hv]
  rfl

/-! ## Claim C7: wire framing round-trip -/
theorem utf8Str_append (a b : List Char) :
    utf8Str (a ++ b) = utf8Str a ++ utf8Str b := by
  induction a with
  | nil => rfl
  | cons c t ih => simp [utf8Str, ih]

theorem utf8Step_ascii (b : Nat) (rest : List Nat) (h : b < 0x80) :
    utf8Step (b :: rest) = some (b, rest) := by
  simp only [utf8Step.eq_def]
  rw [if_pos h]

theorem utf8DecF_cons_ascii (f : Nat) (b : Nat) (rest : List Nat) (h : b < 0x80) :
    utf8DecF (f + 1) (b :: rest) = (utf8DecF f rest).map (fun s => Char.ofNat b :: s) := by
  rw [utf8DecF, utf8Step_ascii _ _ h]

theorem utf8Dec_utf8Str_ascii : ∀ (s : List Char), (∀ c ∈ s, c.toNat < 0x80) →
    utf8Dec (utf8Str s) = some s
  | [] => by intro h; rfl
  | c :: t => by
    intro h
    have hc : c.toNat < 0x80 := h c (by simp)
    rw [utf8Str, utf8Char_ascii hc, List.cons_append, List.nil_append]
    rw [utf8Dec, List.length_cons, utf8DecF_cons_ascii _ _ _ hc]
    rw [show utf8DecF (utf8Str t).length (utf8Str t) = utf8Dec (utf8Str t) from rfl]
    rw [utf8Dec_utf8Str_ascii t (fun x hx => h x (by simp [hx]))]
    simp [Char.ofNat_toNat]

theorem hasSub_cons (pat : List Nat) (b : Nat) (rest : List Nat) :
    hasSub pat (b :: rest) = (pat.isPrefixOf (b :: rest) || hasSub pat rest) := by
  simp [hasSub]

theorem isPrefixOf_crlf13 (l : List Nat) (h : crlfcrlfB.isPrefixOf l = true) :
    2 ≤ List.count 13 l := by
  cases l with
  | nil => exact absurd h (by decide)
  | cons b1 t1 =>
    rw [show crlfcrlfB = [13, 10, 13, 10] from rfl] at h
    simp only [List.isPrefixOf, Bool.and_eq_true, beq_iff_eq] at h
    obtain ⟨e1, h⟩ := h
    cases t1 with
    | nil => exact absurd h (by decide)
    | cons b2 t2 =>
      simp only [List.isPrefixOf, Bool.and_eq_true, beq_iff_eq] at h
      obtain ⟨e2, h⟩ := h
      cases t2 with
      | nil => exact absurd h (by decide)
      | cons b3 t3 =>
        simp only [List.isPrefixOf, Bool.and_eq_true, beq_iff_eq] at h
        obtain ⟨e3, h⟩ := h
        cases t3 with
        | nil => exact absurd h (by decide)
        | cons b4 t4 =>
          simp only [List.isPrefixOf, Bool.and_eq_true, beq_iff_eq] at h
          obtain ⟨e4, _⟩ := h
          subst e1
          subst e2
          subst e3
          subst e4
          simp [List.count_cons]

theorem isPrefixOf_crlf10 (l : List Nat) (h : crlfcrlfB.isPrefixOf l = true) :
    2 ≤ List.count 10 l := by
  cases l with
  | nil => exact absurd h (by decide)
  | cons b1 t1 =>
    rw [show crlfcrlfB = [13, 10, 13, 10] from rfl] at h
    simp only [List.isPrefixOf, Bool.and_eq_true, beq_iff_eq] at h
    obtain ⟨e1, h⟩ := h
    cases t1 with
    | nil => exact absurd h (by decide)
    | cons b2 t2 =>
      simp only [List.isPrefixOf, Bool.and_eq_true, beq_iff_eq] at h
      obtain ⟨e2, h⟩ := h
      cases t2 with
      | nil => exact absurd h (by decide)
      | cons b3 t3 =>
        simp only [List.isPrefixOf, Bool.and_eq_true, beq_iff_eq] at h
        obtain ⟨e3, h⟩ := h
        cases t3 with
        | nil => exact absurd h (by decide)
        | cons b4 t4 =>
          simp only [List.isPrefixOf, Bool.and_eq_true, beq_iff_eq] at h
          obtain ⟨e4, _⟩ := h
          subst e1
          subst e2
          subst e3
          subst e4
          simp [List.count_cons]

theorem hasSub_crlf_false {l : List Nat}
    (h : List.count 13 l < 2 ∨ List.count 10 l < 2) :
    hasSub crlfcrlfB l = false := by
  induction l with
  | nil => decide
  | cons b t ih =>
    rw [hasSub_cons]
    have h1 : crlfcrlfB.isPrefixOf (b :: t) = false := by
      cases hp : crlfcrlfB.isPrefixOf (b :: t) with
      | false => rfl
      | true =>
        have c13 := isPrefixOf_crlf13 _ hp
        have c10 := isPrefixOf_crlf10 _ hp
        rcases h with h | h <;> omega
    have hle13 : List.count 13 t ≤ List.count 13 (b :: t) := by
      rw [List.count_cons]
      exact Nat.le_add_right _ _
    have hle10 : List.count 10 t ≤ List.count 10 (b :: t) := by
      rw [List.count_cons]
      exact Nat.le_add_right _ _
    have h2 : hasSub crlfcrlfB t = false := by
      apply ih
      rcases h with h | h
      · exact Or.inl (by omega)
      · exact Or.inr (by omega)
    simp [h1, h2]

theorem hasSub_crlf_append (l : List Nat) : hasSub crlfcrlfB (l ++ crlfcrlfB) = true := by
  induction l with
  | nil => decide
  | cons b t ih =>
    rw [List.cons_append, hasSub_cons, ih]
    simp

theorem scanHeader_clean : ∀ (l : List Nat) (acc rest : List Nat),
    (∀ b ∈ acc ++ l, b ≠ 13 ∧ b ≠ 10) →
    scanHeader acc (l ++ 13 :: 10 :: 13 :: 10 :: rest)
      = some ((acc ++ l) ++ crlfcrlfB, rest)
  | [] => by
    intro acc rest h
    have hm : ∀ b ∈ acc, b ≠ 13 ∧ b ≠ 10 := fun b hb => h b (by simp [hb])
    have c13 : List.count 13 acc = 0 :=
      List.count_eq_zero.mpr (fun hmem => (hm 13 hmem).1 rfl)
    have c10 : List.count 10 acc = 0 :=
      List.count_eq_zero.mpr (fun hmem => (hm 10 hmem).2 rfl)
    have h1 : hasSub crlfcrlfB (acc ++ [13]) = false :=
      hasSub_crlf_false (Or.inl (by simp [List.count_append, List.count_cons, c13]))
    have h2 : hasSub crlfcrlfB ((acc ++ [13]) ++ [10]) = false :=
      hasSub_crlf_false (Or.inl (by simp [List.count_append, List.count_cons, c13]))
    have h3 : hasSub crlfcrlfB (((acc ++ [13]) ++ [10]) ++ [13]) = false :=
      hasSub_crlf_false (Or.inr (by simp [List.count_append, List.count_cons, c10]))
    have h4 : hasSub crlfcrlfB ((((acc ++ [13]) ++ [10]) ++ [13]) ++ [10]) = true := by
      have he : (((acc ++ [13]) ++ [10]) ++ [13]) ++ [10] = acc ++ crlfcrlfB := by
        simp [crlfcrlfB, List.append_assoc]
      rw [he]
      exact hasSub_crlf_append acc
    rw [List.nil_append]
    simp only [scanHeader, h1, h2, h3, h4, if_true, if_false]
    simp [crlfcrlfB, List.append_assoc]
  | x :: t => by
    intro acc rest h
    have hx : x ≠ 13 ∧ x ≠ 10 := h x (by simp)
    have hm : ∀ b ∈ acc, b ≠ 13 ∧ b ≠ 10 := fun b hb => h b (by simp [hb])
    have c13 : List.count 13 (acc ++ [x]) = 0 := by
      have : List.count 13 acc = 0 :=
        List.count_eq_zero.mpr (fun hmem => (hm 13 hmem).1 rfl)
      simp [List.count_append, List.count_cons, this, hx.1, Ne.symm hx.1]
    have hxs : hasSub crlfcrlfB (acc ++ [x]) = false :=
      hasSub_crlf_false (Or.inl (by omega))
    rw [List.cons_append]
    simp only [scanHeader, hxs, if_false]
    rw [scanHeader_clean t (acc ++ [x]) rest
      (by
        intro b hb
        apply h
        simp only [List.append_assoc, List.cons_append, List.nil_append] at hb ⊢
        simpa using hb)]
    simp [List.append_assoc]

theorem splitCRLFAux_clean : ∀ (l acc rest : List Char), (∀ c ∈ l, c ≠ '\r') →
    splitCRLFAux acc (l ++ '\r' :: '\n' :: rest)
      = (acc.reverse ++ l) :: splitCRLFAux [] rest
  | [] => by
    intro acc rest h
    simp [splitCRLFAux]
  | c :: t => by
    intro acc rest h
    have hc : c ≠ '\r' := h c (by simp)
    rw [List.cons_append, splitCRLFAux.eq_def]
    split
    · rename_i heq
      exact absurd heq (by simp)
    · rename_i rest2 heq
      rw [List.cons.injEq] at heq
      exact absurd heq.1 hc
    · rename_i hnot heq
      rw [List.cons.injEq] at heq
      obtain ⟨e1, e2⟩ := heq
      rw [← e1, ← e2]
      rw [splitCRLFAux_clean t (c :: acc) rest (fun x hx => h x (by simp [hx]))]
      simp

theorem splitColonAux_term : ∀ (l acc : List Char), (∀ c ∈ l, c ≠ ':') →
    splitColonAux acc l = [acc.reverse ++ l]
  | [] => by
    intro acc h
    simp [splitColonAux]
  | c :: t => by
    intro acc h
    have hc : c ≠ ':' := h c (by simp)
    rw [splitColonAux.eq_def]
    split
    · rename_i heq
      exact absurd heq (by simp)
    · rename_i rest2 heq
      rw [List.cons.injEq] at heq
      exact absurd heq.1 hc
    · rename_i hnot heq
      rw [List.cons.injEq] at heq
      obtain ⟨e1, e2⟩ := heq
      rw [← e1, ← e2]
      rw [splitColonAux_term t (c :: acc) (fun x hx => h x (by simp [hx]))]
      simp

theorem splitColonAux_clean : ∀ (l acc rest : List Char), (∀ c ∈ l, c ≠ ':') →
    splitColonAux acc (l ++ ':' :: rest)
      = (acc.reverse ++ l) :: splitColonAux [] rest
  | [] => by
    intro acc rest h
    simp [splitColonAux]
  | c :: t => by
    intro acc rest h
    have hc : c ≠ ':' := h c (by simp)
    rw [List.cons_append, splitColonAux.eq_def]
    split
    · rename_i heq
      exact absurd heq (by simp)
    · rename_i rest2 heq
      rw [List.cons.injEq] at heq
      exact absurd heq.1 hc
    · rename_i hnot heq
      rw [List.cons.injEq] at heq
      obtain ⟨e1, e2⟩ := heq
      rw [← e1, ← e2]
      rw [splitColonAux_clean t (c :: acc) rest (fun x hx => h x (by simp [hx]))]
      simp

theorem dropWhile_eq_self_of (p : Char → Bool) : ∀ (l : List Char),
    (∀ c ∈ l, p c = false) → l.dropWhile p = l
  | [] => by intro h; rfl
  | c :: t => by
    intro h
    simp [List.dropWhile, h c (by simp)]

theorem isPyWs_false_of_digit {c : Char} (h : isDigit10 c = true) : isPyWs c = false := by
  cases hw : isPyWs c with
  | false => rfl
  | true =>
    simp only [isPyWs, Bool.or_eq_true, decide_eq_true_eq] at hw
    rcases hw with rfl | rfl | rfl | rfl | rfl | rfl <;> exact absurd h (by decide)

theorem stripWs_sp_digits {ds : List Char} (h : ∀ c ∈ ds, isDigit10 c = true) :
    stripWs (' ' :: ds) = ds := by
  have hnw : ∀ c ∈ ds, isPyWs c = false := fun c hc => isPyWs_false_of_digit (h c hc)
  have h1 : (' ' :: ds).dropWhile isPyWs = ds := by
    rw [List.dropWhile_cons]
    rw [if_pos (by decide)]
    exact dropWhile_eq_self_of _ ds hnw
  have h2 : ds.reverse.dropWhile isPyWs = ds.reverse :=
    dropWhile_eq_self_of _ ds.reverse (fun c hc => hnw c (List.mem_reverse.mp hc))
  rw [stripWs, h1, h2, List.reverse_reverse]

theorem allDigits_of : ∀ (ds : List Char), (∀ c ∈ ds, isDigit10 c = true) →
    allDigits ds = true
  | [] => by intro h; rfl
  | c :: t => by
    intro h
    simp [allDigits, h c (by simp), allDigits_of t (fun x hx => h x (by simp [hx]))]

theorem pyInt_sp_natChars (n : Nat) : pyInt (' ' :: natChars n) = some (n : Int) := by
  have hds := natChars_digits n
  have hstrip : stripWs (' ' :: natChars n) = natChars n := stripWs_sp_digits hds
  obtain ⟨c, cs, hc, hcd⟩ := natChars_head_digit n
  have hpd : pyDigits (natChars n) = some n := by
    rw [pyDigits, if_neg (natChars_ne_nil n), if_pos (allDigits_of _ hds)]
    rw [show digitsVal (natChars n) = (natChars n).foldl (fun a c => a * 10 + (c.toNat - 48)) 0 from rfl]
    rw [natChars_val]
  rw [pyInt.eq_def, hstrip, hc]
  split
  · rename_i r heq
    rw [List.cons.injEq] at heq
    exact absurd heq.1 (isDigit10_ne _ hcd (by decide))
  · rename_i r heq
    rw [List.cons.injEq] at heq
    exact absurd heq.1 (isDigit10_ne _ hcd (by decide))
  · rename_i r hnot1 hnot2
    rw [← hc, hpd]
    rfl

theorem isPrefixOf_append_self : ∀ (a b : List Char), a.isPrefixOf (a ++ b) = true
  | [], _ => by simp [List.isPrefixOf]
  | c :: t, b => by
    simp [List.isPrefixOf, isPrefixOf_append_self t b]

theorem headerCL_line (n : Nat) :
    headerCL (sContentLengthSp ++ natChars n ++ crlfcrlf) = some (n : Int) := by
  have hdig := natChars_digits n
  have hnr : ∀ c ∈ sContentLengthSp ++ natChars n, c ≠ '\r' := by
    intro c hcm
    rcases List.mem_append.mp hcm with hm | hm
    · have hall : ∀ c ∈ sContentLengthSp, c ≠ '\r' := by decide
      exact hall c hm
    · exact isDigit10_ne _ (hdig c hm) (by decide)
  have hsplit : splitCRLF (sContentLengthSp ++ natChars n ++ crlfcrlf)
      = [sContentLengthSp ++ natChars n, [], []] := by
    rw [show sContentLengthSp ++ natChars n ++ crlfcrlf
        = (sContentLengthSp ++ natChars n) ++ '\r' :: '\n' :: ('\r' :: '\n' :: []) from by
      simp [crlfcrlf]]
    rw [splitCRLF, splitCRLFAux_clean _ [] _ hnr]
    simp [splitCRLFAux]
  have hkey : sContentLengthKey.isPrefixOf (sContentLengthSp ++ natChars n) = true := by
    rw [show sContentLengthSp = sContentLengthKey ++ [' '] from by decide, List.append_assoc]
    exact isPrefixOf_append_self _ _
  have hcolsplit : splitColon (sContentLengthSp ++ natChars n)
      = ["Content-Length".toList, ' ' :: natChars n] := by
    rw [show sContentLengthSp ++ natChars n
        = ("Content-Length".toList) ++ ':' :: (' ' :: natChars n) from by
      rw [show sContentLengthSp = "Content-Length".toList ++ [':', ' '] from by decide,
        List.append_assoc]
      rfl]
    rw [splitColon, splitColonAux_clean _ [] _ (by decide)]
    rw [splitColonAux_term _ [] (by
      intro c hcm
      rcases List.mem_cons.mp hcm with rfl | hm
      · decide
      · exact isDigit10_ne _ (hdig c hm) (by decide))]
    simp
  rw [headerCL, hsplit]
  rw [clLoop.eq_def]
  simp only [hkey, if_true, hcolsplit]
  simp only [List.get?_cons_succ, List.get?_cons_zero, Option.some.injEq]
  rw [pyInt_sp_natChars]
  have hemp : sContentLengthKey.isPrefixOf ([] : List Char) = false := by decide
  simp [clLoop, hemp]

theorem decodeFrame_sendBytes (msg : Json) :
    decodeFrame (sendBytes msg) = some (msg, []) := by
  have hpr := dumps_printable msg
  have hasc : ∀ c ∈ dumps msg, c.toNat < 0x80 := fun c hc => by
    have := hpr c hc
    omega
  have hbodylen : (utf8Str (dumps msg)).length = (dumps msg).length :=
    utf8Str_len_ascii hasc
  have hcrb : utf8Str crlfcrlf = crlfcrlfB := by decide
  have hbytes : sendBytes msg
      = utf8Str (sContentLengthSp ++ natChars (dumps msg).length)
        ++ (13 :: 10 :: 13 :: 10 :: utf8Str (dumps msg)) := by
    rw [sendBytes, utf8Str_append, hcrb, List.append_assoc]
    rfl
  have hhdrascii : ∀ c ∈ sContentLengthSp ++ natChars (dumps msg).length, c.toNat < 0x80 := by
    intro c hcm
    rcases List.mem_append.mp hcm with hm | hm
    · have hall : ∀ c ∈ sContentLengthSp, c.toNat < 0x80 := by decide
      exact hall c hm
    · have := natChars_digits (dumps msg).length c hm
      simp only [isDigit10, decide_eq_true_eq] at this
      omega
  have hclean : ∀ b ∈ ([] : List Nat)
      ++ utf8Str (sContentLengthSp ++ natChars (dumps msg).length), b ≠ 13 ∧ b ≠ 10 := by
    intro b hb
    rw [List.nil_append, utf8Str_ascii hhdrascii] at hb
    obtain ⟨c, hcm, hcv⟩ := List.mem_map.mp hb
    rcases List.mem_append.mp hcm with hm | hm
    · have hall : ∀ c ∈ sContentLengthSp, c.toNat ≠ 13 ∧ c.toNat ≠ 10 := by decide
      rw [← hcv]
      exact hall c hm
    · have := natChars_digits (dumps msg).length c hm
      simp only [isDigit10, decide_eq_true_eq] at this
      rw [← hcv]
      omega
  have hscan : scanHeader [] (sendBytes msg)
      = some (utf8Str (sContentLengthSp ++ natChars (dumps msg).length) ++ crlfcrlfB,
              utf8Str (dumps msg)) := by
    rw [hbytes]
    have := scanHeader_clean (utf8Str (sContentLengthSp ++ natChars (dumps msg).length))
      [] (utf8Str (dumps msg)) hclean
    simpa using this
  have hhdr : utf8Str (sContentLengthSp ++ natChars (dumps msg).length) ++ crlfcrlfB
      = utf8Str ((sContentLengthSp ++ natChars (dumps msg).length) ++ crlfcrlf) := by
    rw [utf8Str_append (sContentLengthSp ++ natChars (dumps msg).length) crlfcrlf, hcrb]
  have hdec : utf8Dec (utf8Str ((sContentLengthSp ++ natChars (dumps msg).length) ++ crlfcrlf))
      = some ((sContentLengthSp ++ natChars (dumps msg).length) ++ crlfcrlf) := by
    apply utf8Dec_utf8Str_ascii
    intro c hcm
    rcases List.mem_append.mp hcm with hm | hm
    · exact hhdrascii c hm
    · have hall : ∀ c ∈ crlfcrlf, c.toNat < 0x80 := by decide
      exact hall c hm
  have hcl : headerCL ((sContentLengthSp ++ natChars (dumps msg).length) ++ crlfcrlf)
      = some ((dumps msg).length : Int) := headerCL_line (dumps msg).length
  have hbdec : utf8Dec (utf8Str (dumps msg)) = some (dumps msg) :=
    utf8Dec_utf8Str_ascii _ hasc
  have htn : ((((dumps msg).length : Nat) : Int)).toNat = (dumps msg).length := by
    omega
  have htake : (utf8Str (dumps msg)).take (dumps msg).length = utf8Str (dumps msg) := by
    rw [← hbodylen]
    exact List.take_length _
  have hdrop : (utf8Str (dumps msg)).drop (dumps msg).length = [] := by
    rw [← hbodylen]
    exact List.drop_length _
  rw [decodeFrame, hscan, hhdr]
  simp only [hdec, hcl]
  rw [if_pos (by constructor <;> omega)]
  simp only [htn, htake, hbdec, loads_dumps, hdrop]

/-- Claim C7: round-trip — for any id, method and JSON-serializable
params, decoding the bytes `_send` produces for the request object
(header scan to the `\r\n\r\n` terminator, `Content-Length` parse,
exact-length body read, UTF-8 decode, `json.loads`) reconstructs exactly
the original request — same id, method and params — consuming the whole
frame. -/
theorem c7_encode_decode_roundtrip (rid : Int) (method : List Char) (params : Json) :
    decodeFrame (sendBytes (reqMsg rid method params))
      = some (reqMsg rid method params, []) :=
  decodeFrame_sendBytes (reqMsg rid method params)

/-! ## Claim C5: read-loop error handling -/
theorem scanHeader_shrinks : ∀ (bs acc hdr rest : List Nat),
    scanHeader acc bs = some (hdr, rest) → rest.length < bs.length
  | [] => by
    intro acc hdr rest h
    exact absurd h (by simp [scanHeader])
  | b :: t => by
    intro acc hdr rest h
    simp only [scanHeader] at h
    by_cases hs : hasSub crlfcrlfB (acc ++ [b]) = true
    · rw [if_pos hs] at h
      rw [Option.some.injEq, Prod.mk.injEq] at h
      rw [← h.2]
      simp
    · rw [if_neg hs] at h
      have := scanHeader_shrinks t (acc ++ [b]) hdr rest h
      simp only [List.length_cons]
      omega

theorem readLoopF_fuel : ∀ (f1 f2 : Nat) (st : ClientState) (bs : List Nat),
    bs.length < f1 → bs.length < f2 → readLoopF f1 st bs = readLoopF f2 st bs
  | 0 => by
    intro f2 st bs h1 h2
    omega
  | f1 + 1 => by
    intro f2 st bs h1 h2
    cases f2 with
    | zero => omega
    | succ g2 =>
      cases hscan : scanHeader [] bs with
      | none => simp only [readLoopF, hscan]
      | some pr =>
        obtain ⟨hdr, rest⟩ := pr
        have hrest : rest.length < bs.length := scanHeader_shrinks bs [] hdr rest hscan
        have hbs : 0 < bs.length := by
          cases bs with
          | nil => simp [scanHeader] at hscan
          | cons _ _ => simp
        simp only [readLoopF, hscan]
        cases hdec : utf8Dec hdr with
        | none =>
          simp only [hdec]
          rw [readLoopF_fuel f1 g2 st rest (by omega) (by omega)]
        | some hchars =>
          simp only [hdec]
          cases hcl : headerCL hchars with
          | none =>
            simp only [hcl]
            rw [readLoopF_fuel f1 g2 st rest (by omega) (by omega)]
          | some n =>
            simp only [hcl]
            by_cases hok : 0 ≤ n ∧ n.toNat ≤ rest.length
            · simp only [if_pos hok]
              have hdl : (rest.drop n.toNat).length < f1 := by
                simp only [List.length_drop]
                omega
              have hdl2 : (rest.drop n.toNat).length < g2 := by
                simp only [List.length_drop]
                omega
              cases hbd : utf8Dec (rest.take n.toNat) with
              | none =>
                simp only [hbd]
                rw [readLoopF_fuel f1 g2 st (rest.drop n.toNat) hdl hdl2]
              | some bchars =>
                simp only [hbd]
                cases hld : loads bchars with
                | none =>
                  simp only [hld]
                  rw [readLoopF_fuel f1 g2 st (rest.drop n.toNat) hdl hdl2]
                | some msg =>
                  simp only [hld]
                  cases hd : (dispatchMessage st msg).2 with
                  | none =>
                    simp only [hd]
                    rw [readLoopF_fuel f1 g2 (dispatchMessage st msg).1
                      (rest.drop n.toNat) hdl hdl2]
                  | some e =>
                    simp only [hd]
                    rw [readLoopF_fuel f1 g2 (dispatchMessage st msg).1
                      (rest.drop n.toNat) hdl hdl2]
            · simp only [if_neg hok]
              by_cases hneg : n < 0
              · simp only [if_pos hneg]
                rw [readLoopF_fuel f1 g2 st rest (by omega) (by omega)]
              · simp only [if_neg hneg]
                rw [readLoopF_fuel f1 g2 st []
                  (by simp only [List.length_nil]; omega)
                  (by simp only [List.length_nil]; omega)]

theorem readLoopF_nil : ∀ (f : Nat) (st : ClientState), readLoopF f st [] = (st, []) := by
  intro f st
  cases f with
  | zero => rfl
  | succ g => rfl

theorem readLoopF_eos (f : Nat) (st : ClientState) {bs : List Nat}
    (hscan : scanHeader [] bs = none) :
    readLoopF (f + 1) st bs = (st, []) := by
  simp only [readLoopF, hscan]

theorem readLoopF_headerErr (f : Nat) (st : ClientState) {bs hdr rest : List Nat}
    {hchars : List Char} (hscan : scanHeader [] bs = some (hdr, rest))
    (hdec : utf8Dec hdr = some hchars) (hcl : headerCL hchars = none) :
    readLoopF (f + 1) st bs
      = ((readLoopF f st rest).1, .headerErr :: (readLoopF f st rest).2) := by
  simp only [readLoopF, hscan, hdec, hcl]

theorem readLoopF_bodyErr (f : Nat) (st : ClientState) {bs hdr rest : List Nat}
    {hchars bchars : List Char} {n : Int} (hscan : scanHeader [] bs = some (hdr, rest))
    (hdec : utf8Dec hdr = some hchars) (hcl : headerCL hchars = some n)
    (hok : 0 ≤ n ∧ n.toNat ≤ rest.length)
    (hbd : utf8Dec (rest.take n.toNat) = some bchars) (hld : loads bchars = none) :
    readLoopF (f + 1) st bs
      = ((readLoopF f st (rest.drop n.toNat)).1,
         .bodyErr :: (readLoopF f st (rest.drop n.toNat)).2) := by
  simp only [readLoopF, hscan, hdec, hcl, if_pos hok, hbd, hld]

theorem readLoopF_incomplete (f : Nat) (st : ClientState) {bs hdr rest : List Nat}
    {hchars : List Char} {n : Int} (hscan : scanHeader [] bs = some (hdr, rest))
    (hdec : utf8Dec hdr = some hchars) (hcl : headerCL hchars = some n)
    (hok : ¬ (0 ≤ n ∧ n.toNat ≤ rest.length)) (hneg : ¬ n < 0) :
    readLoopF (f + 1) st bs = (st, [ .incompleteRead ]) := by
  simp only [readLoopF, hscan, hdec, hcl, if_neg hok, if_neg hneg, readLoopF_nil]

set_option maxHeartbeats 1600000 in
theorem readLoop_badHdr (st : ClientState) (rest : List Nat) :
    readLoop st (badHdrBytes ++ rest)
      = ((readLoop st rest).1, .headerErr :: (readLoop st rest).2) := by
  have hb : badHdrBytes = utf8Str ("Content-Length: abc".toList) ++ crlfcrlfB := by decide
  have hscan : scanHeader [] (badHdrBytes ++ rest) = some (badHdrBytes, rest) := by
    conv_lhs => rw [hb, List.append_assoc,
      show crlfcrlfB ++ rest = 13 :: 10 :: 13 :: 10 :: rest from rfl]
    rw [scanHeader_clean (utf8Str ("Content-Length: abc".toList)) [] rest (by decide)]
    rw [hb]
    simp
  have hdecH : utf8Dec badHdrBytes = some ("Content-Length: abc".toList ++ crlfcrlf) := by
    decide
  have hclH : headerCL ("Content-Length: abc".toList ++ crlfcrlf) = none := by decide
  have hpos : 0 < badHdrBytes.length := by decide
  rw [readLoop, readLoopF_headerErr ((badHdrBytes ++ rest).length) st hscan hdecH hclH]
  rw [readLoopF_fuel (badHdrBytes ++ rest).length (rest.length + 1) st rest
    (by simp only [List.length_append]; omega) (by omega)]
  rfl

set_option maxHeartbeats 1600000 in
theorem readLoop_badBody (st : ClientState) (rest : List Nat) :
    readLoop st (badBodyBytes ++ rest)
      = ((readLoop st rest).1, .bodyErr :: (readLoop st rest).2) := by
  have hb2 : badBodyBytes ++ rest
      = utf8Str ("Content-Length: 2".toList)
        ++ (13 :: 10 :: 13 :: 10 :: (123 :: 93 :: rest)) := by
    rw [show badBodyBytes
        = utf8Str ("Content-Length: 2".toList) ++ (13 :: 10 :: 13 :: 10 :: (123 :: 93 :: []))
      from by decide]
    simp
  have hscan2 : scanHeader [] (badBodyBytes ++ rest)
      = some (utf8Str ("Content-Length: 2".toList) ++ crlfcrlfB, 123 :: 93 :: rest) := by
    rw [hb2]
    have := scanHeader_clean (utf8Str ("Content-Length: 2".toList)) []
      (123 :: 93 :: rest) (by decide)
    simpa using this
  have hdec2 : utf8Dec (utf8Str ("Content-Length: 2".toList) ++ crlfcrlfB)
      = some ("Content-Length: 2".toList ++ crlfcrlf) := by decide
  have hcl2 : headerCL ("Content-Length: 2".toList ++ crlfcrlf) = some (2 : Int) := by decide
  have hok : (0 : Int) ≤ 2 ∧ ((2 : Int)).toNat ≤ (123 :: 93 :: rest).length := by
    refine ⟨by decide, ?_⟩
    rw [show ((2 : Int)).toNat = 2 from rfl]
    simp only [List.length_cons]
    omega
  have hbd2 : utf8Dec ((123 :: 93 :: rest).take ((2 : Int)).toNat)
      = some ('\x7b' :: ']' :: []) := by
    rw [show (123 :: 93 :: rest).take ((2 : Int)).toNat = [123, 93] from rfl]
    decide
  have hld2 : loads ('\x7b' :: ']' :: []) = none := by decide
  have hpos : 0 < badBodyBytes.length := by decide
  rw [readLoop, readLoopF_bodyErr ((badBodyBytes ++ rest).length) st hscan2 hdec2 hcl2
    hok hbd2 hld2]
  rw [show (123 :: 93 :: rest).drop ((2 : Int)).toNat = rest from rfl]
  rw [readLoopF_fuel (badBodyBytes ++ rest).length (rest.length + 1) st rest
    (by simp only [List.length_append]; omega) (by omega)]
  rfl

set_option maxHeartbeats 1600000 in
theorem readLoop_midBody (st : ClientState) :
    readLoop st midBodyBytes = (st, [ .incompleteRead ]) := by
  have hscanM : scanHeader [] midBodyBytes
      = some (utf8Str ("Content-Length: 5".toList) ++ crlfcrlfB, [123]) := by decide
  have hdecM : utf8Dec (utf8Str ("Content-Length: 5".toList) ++ crlfcrlfB)
      = some ("Content-Length: 5".toList ++ crlfcrlf) := by decide
  have hclM : headerCL ("Content-Length: 5".toList ++ crlfcrlf) = some (5 : Int) := by decide
  have hok : ¬ ((0 : Int) ≤ 5 ∧ ((5 : Int)).toNat ≤ ([123] : List Nat).length) := by decide
  have hneg : ¬ ((5 : Int) < 0) := by decide
  rw [readLoop, readLoopF_incomplete midBodyBytes.length st hscanM hdecM hclM hok hneg]

set_option maxHeartbeats 1600000 in
theorem readLoop_midHdr (st : ClientState) :
    readLoop st (utf8Str ("Content-Len".toList)) = (st, []) := by
  have hscanP : scanHeader [] (utf8Str ("Content-Len".toList)) = none := by decide
  rw [readLoop, readLoopF_eos (utf8Str ("Content-Len".toList)).length st hscanP]

set_option maxHeartbeats 1600000 in
/-- Claim C5, counterexample: a frame whose header has no parsable
`Content-Length` is NOT connection-fatal — with request id 1 pending, the
read loop prints the error and keeps reading: the next (valid) frame still
resolves the pending future, and neither the read task nor the process is
torn down. -/
theorem c5_counterexample :
    (readLoop pendingOneState (badHdrBytes ++ sendBytes (respMsg 1 (.num 7)))).2
      = [ .headerErr ]
    ∧ ((readLoop pendingOneState (badHdrBytes ++ sendBytes (respMsg 1 (.num 7)))).1).futures
      = [ .done (.num 7) ]
    ∧ ((readLoop pendingOneState (badHdrBytes ++ sendBytes (respMsg 1 (.num 7)))).1).read_task
      = some true
    ∧ ((readLoop pendingOneState (badHdrBytes ++ sendBytes (respMsg 1 (.num 7)))).1).proc
      = some true := by
  decide

/-- Claim C5, amended: a header without a parsable `Content-Length` and a
body that fails JSON parsing are each printed and skipped — the loop
continues with the rest of the stream and the client state is untouched
by the bad frame; there is no stop-equivalent teardown.  Stream closure
mid-header exits the loop silently; stream closure mid-body raises
`IncompleteReadError`, which is also printed, and the loop then exits at
end-of-stream. -/
theorem c5_malformed_logged_not_fatal (st : ClientState) (rest : List Nat) :
    readLoop st (badHdrBytes ++ rest)
      = ((readLoop st rest).1, .headerErr :: (readLoop st rest).2)
    ∧ readLoop st (badBodyBytes ++ rest)
      = ((readLoop st rest).1, .bodyErr :: (readLoop st rest).2)
    ∧ readLoop st (utf8Str ("Content-Len".toList)) = (st, [])
    ∧ readLoop st midBodyBytes = (st, [ .incompleteRead ]) :=
  ⟨readLoop_badHdr st rest, readLoop_badBody st rest, readLoop_midHdr st,
   readLoop_midBody st⟩

/-! ## Claim C2 -/

/-- Claim C2, counterexample: after `request` id 1 times out
(`asyncio.wait_for` cancels the future), the correlation-table entry for
id 1 is still registered and unresolved — the claim's "explicitly expired
and removed (no registered-but-unresolved entry is ever leaked)" is false
on the code. -/
theorem c2_counterexample :
    (expireTimeout pendingOneState 0).pending_requests = [((1 : Int), 0)]
    ∧ (expireTimeout pendingOneState 0).pending_requests ≠ []
    ∧ List.lookup 1 (expireTimeout pendingOneState 0).pending_requests = some 0
    ∧ (expireTimeout pendingOneState 0).futures = [ .cancelled ] :=
  ⟨by decide, by decide, by decide, by decide⟩

/-- Claim C2, amended: on timeout the waiter is cancelled and the caller
gets `TimeoutError`, but the table entry is NOT removed at expiry; it
stays registered until a response with that id arrives, which pops it;
the attempted completion of the cancelled future raises
`InvalidStateError` inside the read loop, which is caught there — so a
late response does not throw to any caller, does not change any future,
and does not affect any other pending entry. -/
theorem c2_timeout_keeps_entry_late_response_discarded
    (st : ClientState) (i : Int) (fi : Nat) (v : Json)
    (hl : List.lookup i st.pending_requests = some fi)
    (hf : st.futures.get? fi = some .pending) :
    List.lookup i (expireTimeout st fi).pending_requests = some fi
    ∧ (expireTimeout st fi).futures.get? fi = some .cancelled
    ∧ (dispatchMessage (expireTimeout st fi) (respMsg i v)).1.pending_requests
        = popKey st.pending_requests i
    ∧ (dispatchMessage (expireTimeout st fi) (respMsg i v)).1.futures
        = (expireTimeout st fi).futures
    ∧ (dispatchMessage (expireTimeout st fi) (respMsg i v)).2 = some .dispatchErr
    ∧ ∀ j : Int, j ≠ i →
        List.lookup j (dispatchMessage (expireTimeout st fi) (respMsg i v)).1.pending_requests
          = List.lookup j st.pending_requests := by
  have hlt : fi < st.futures.length := lt_of_get?_eq_some hf
  have hexp : expireTimeout st fi = { st with futures := st.futures.set fi .cancelled } := by
    have hf' : st.futures[fi]? = some FutureState.pending := by simpa using hf
    simp [expireTimeout, hf']
  have hl1 : List.lookup i (expireTimeout st fi).pending_requests = some fi := by
    rw [hexp]; exact hl
  have hf1 : (expireTimeout st fi).futures.get? fi = some .cancelled := by
    rw [hexp]; exact get?_set_self hlt
  have hd := dispatch_respMsg_stale v hl1 hf1
  refine ⟨hl1, hf1, ?_, ?_, ?_, ?_⟩
  · rw [hd, hexp]
  · rw [hd]
  · rw [hd]
  · intro j hj
    rw [hd, hexp]
    simpa using lookup_popKey_ne hj

/-- Claim C2, witness for the amended theorem at a concrete session. -/
theorem c2_witness :
    List.lookup 1 pendingOneState.pending_requests = some 0
    ∧ pendingOneState.futures.get? 0 = some .pending
    ∧ (dispatchMessage (expireTimeout pendingOneState 0) (respMsg 1 (.num 7))).1.pending_requests
        = popKey pendingOneState.pending_requests 1
    ∧ (dispatchMessage (expireTimeout pendingOneState 0) (respMsg 1 (.num 7))).2
        = some .dispatchErr := by
  have h := c2_timeout_keeps_entry_late_response_discarded pendingOneState 1 0 (.num 7)
    (by decide) (by decide)
  exact ⟨by decide, by decide, h.2.2.1, h.2.2.2.2.1⟩

/-! ## Claim C3 -/

/-- Claim C3, counterexample: a request pending when `stop()` runs is NOT
completed with an error — `stop` cancels the read task and terminates the
process but leaves the waiter pending, so the claim's "drains the
correlation table" is false on the code. -/
theorem c3_counterexample :
    pendingOneState.futures.get? 0 = some .pending
    ∧ (stop pendingOneState).futures.get? 0 = some .pending
    ∧ (stop pendingOneState).pending_requests = [((1 : Int), 0)]
    ∧ ¬ ∃ e, (stop pendingOneState).futures.get? 0 = some (.failed e) := by
  refine ⟨by decide, by decide, by decide, ?_⟩
  rintro ⟨e, he⟩
  have h0 : (stop pendingOneState).futures.get? 0 = some .pending := by decide
  rw [h0] at he
  exact FutureState.noConfusion (Option.some.inj he)

/-- Claim C3, amended: `stop()` cancels the read task and terminates the
process but does not drain the correlation table — every future and every
table entry is exactly as before, so a pending caller is unblocked only
by its own 30-second `wait_for` timeout; `stop` is idempotent and is a
no-op on a never-started session. -/
theorem c3_stop_no_drain :
    ∀ st : ClientState,
      (stop st).futures = st.futures
      ∧ (stop st).pending_requests = st.pending_requests
      ∧ stop (stop st) = stop st
      ∧ stop initState = initState := by
  intro st
  refine ⟨rfl, rfl, ?_, by decide⟩
  cases h1 : st.read_task <;> cases h2 : st.proc <;> simp [stop, h1, h2]

/-! ## Claim C4 -/

/-- Claim C4, counterexample: the read loop hits end-of-stream (process
killed externally) while request id 1 is pending; it exits leaving the
waiter pending — no `ProcessExitError`-style failure is delivered, so
the claim is false on the code. -/
theorem c4_counterexample :
    (readLoop pendingOneState []).1 = pendingOneState
    ∧ pendingOneState.futures.get? 0 = some .pending
    ∧ ¬ ∃ e, (readLoop pendingOneState []).1.futures.get? 0 = some (.failed e) := by
  refine ⟨by decide, by decide, ?_⟩
  rintro ⟨e, he⟩
  have h0 : (readLoop pendingOneState []).1.futures.get? 0 = some .pending := by decide
  rw [h0] at he
  exact FutureState.noConfusion (Option.some.inj he)

/-- Claim C4, amended: on end-of-stream before a complete header the
dispatch loop simply returns with the state unchanged — no pending
request is failed, nothing is drained; pending callers are unblocked only
by their own request timeout. -/
theorem c4_eos_exits_without_drain (st : ClientState) (bs : List Nat)
    (h : scanHeader [] bs = none) : readLoop st bs = (st, []) := by
  simp [readLoop, readLoopF, h]

/-- Claim C4, witness: end-of-stream mid-header (two stray bytes) with a
request pending. -/
theorem c4_witness :
    scanHeader [] [13, 10] = none
    ∧ readLoop pendingOneState [13, 10] = (pendingOneState, []) :=
  ⟨by decide, c4_eos_exits_without_drain pendingOneState [13, 10] (by decide)⟩

/-! ## Claim C8 -/

/-- Claim C8: the id counter only ever increases, every `request` call
gets an id strictly above every id the session allocated before, all ids
from any run of back-to-back `request` calls are pairwise distinct, and
each call advances the counter by exactly one. -/
theorem c8_request_ids_unique :
    ∀ (calls : List (List Char × Json)) (st : ClientState),
      List.Pairwise (· < ·) (issueAll st calls).1
      ∧ (∀ i ∈ (issueAll st calls).1, ((st.request_id : Nat) : Int) < i)
      ∧ (issueAll st calls).1.Nodup
      ∧ (issueAll st calls).2.request_id = st.request_id + calls.length := by
  intro calls
  induction calls with
  | nil => intro st; simp [issueAll]
  | cons c t ih =>
    intro st
    obtain ⟨ihp, ihgt, ihnd, ihc⟩ := ih (request st c.1 c.2).2.2.2
    have hcounter : (request st c.1 c.2).2.2.2.request_id = st.request_id + 1 := rfl
    rw [hcounter] at ihgt ihc
    have hhead : (issueAll st (c :: t)).1
        = ((st.request_id + 1 : Nat) : Int) :: (issueAll (request st c.1 c.2).2.2.2 t).1 := rfl
    have hstep : ∀ i ∈ (issueAll (request st c.1 c.2).2.2.2 t).1,
        ((st.request_id + 1 : Nat) : Int) < i := by
      intro i hi
      have := ihgt i hi
      exact_mod_cast this
    have hp : List.Pairwise (· < ·) (issueAll st (c :: t)).1 := by
      rw [hhead]
      exact List.pairwise_cons.mpr ⟨hstep, ihp⟩
    refine ⟨hp, ?_, ?_, ?_⟩
    · intro i hi
      rw [hhead] at hi
      rcases List.mem_cons.mp hi with h | h
      · subst h; exact_mod_cast Nat.lt_succ_self st.request_id
      · have h1 : ((st.request_id : Nat) : Int) < ((st.request_id + 1 : Nat) : Int) := by
          exact_mod_cast Nat.lt_succ_self st.request_id
        exact lt_trans h1 (hstep i h)
    · exact hp.imp (fun h => ne_of_lt h)
    · have : (issueAll st (c :: t)).2 = (issueAll (request st c.1 c.2).2.2.2 t).2 := rfl
      rw [this, ihc]
      simp only [List.length_cons]
      omega

/-! ## Claim C9 -/

/-- Claim C9, counterexample: `get_diagnostics` on a readable file is not
a read-only non-suspending snapshot — it writes a `didOpen` notification
to the transport and sleeps 500 ms before reading the diagnostics dict,
so its effect trace is not empty. -/
theorem c9_counterexample :
    (get_diagnostics oneFileFs initState pathA).1
      = [ .send (didOpenMsg pathA contentA), .sleepMs 500 ]
    ∧ (get_diagnostics oneFileFs initState pathA).1 ≠ []
    ∧ Effect.sleepMs 500 ∈ (get_diagnostics oneFileFs initState pathA).1
    ∧ Effect.send (didOpenMsg pathA contentA) ∈ (get_diagnostics oneFileFs initState pathA).1 :=
  ⟨by decide, by decide, by decide, by decide⟩

/-- Claim C9, amended: the snapshot read itself
(`self._diagnostics.get(uri, [])`) is read-only — `get_diagnostics`
returns the session state unchanged and yields the most recently stored
payload for the uri (or the `[]` default) — but the operation as a whole
first sends a `didOpen` notification for the file and suspends for
500 ms. -/
theorem c9_snapshot_after_effects (fs : FS) (st : ClientState) (path content : List Char)
    (hfs : fs path = some content) :
    get_diagnostics fs st path
      = ([ .send (didOpenMsg path content), .sleepMs 500 ], st,
         dGetD st.diagnostics (.str (fileUri path)) (.arr .nil))
    ∧ (∀ d : List (Json × Json), ∀ u v dflt : Json, dGetD (setKJ d u v) u dflt = v) := by
  constructor
  · simp [get_diagnostics, open_file, hfs]
  · intro d u v dflt
    simp [dGetD, dGet_setKJ_self]

/-- Claim C9, witness for the amended theorem. -/
theorem c9_witness :
    oneFileFs pathA = some contentA
    ∧ get_diagnostics oneFileFs initState pathA
        = ([ .send (didOpenMsg pathA contentA), .sleepMs 500 ], initState,
           dGetD initState.diagnostics (.str (fileUri pathA)) (.arr .nil)) :=
  ⟨by decide, (c9_snapshot_after_effects oneFileFs initState pathA contentA (by decide)).1⟩

/-! ## Claim C10 -/

/-- Claim C10, counterexample: when the file cannot be read, `open_file`
returns an error string without sending anything, yet `get_definition`
still issues its position-based request — the didOpen is skipped, so
"performed on every call, never skipped" is false on the code. -/
theorem c10_counterexample :
    (opRun .definitionOp emptyFs initState pathA 1 1).1
      = [ .send (reqMsg 1 sDefinitionM (posParams pathA 1 1)) ]
    ∧ ∀ content,
        Effect.send (didOpenMsg pathA content) ∉ (opRun .definitionOp emptyFs initState pathA 1 1).1 := by
  have h1 : (opRun .definitionOp emptyFs initState pathA 1 1).1
      = [ .send (reqMsg 1 sDefinitionM (posParams pathA 1 1)) ] := by decide
  refine ⟨h1, ?_⟩
  intro content hmem
  rw [h1] at hmem
  rcases List.mem_singleton.mp hmem with hm
  injection hm with hm2
  have h2 := congrArg (fun m => objGet m sMethod) hm2
  have h3 : objGet (didOpenMsg pathA content) sMethod = some (.str sDidOpen) := rfl
  have h4 : objGet (reqMsg 1 sDefinitionM (posParams pathA 1 1)) sMethod
      = some (.str sDefinitionM) := rfl
  simp only [h3, h4] at h2
  exact absurd (Option.some.inj h2) (by decide)

/-- Claim C10, amended: when the file's content can be read, every
position-based operation sends exactly the `didOpen` notification
(constant version 1, the file's full content) followed by its
position-based request; when the read fails, no didOpen is sent but the
request is still issued. -/
theorem c10_open_before_request (op : PosOp) (fs : FS) (st : ClientState)
    (path content : List Char) (line col : Int) (hfs : fs path = some content) :
    (opRun op fs st path line col).1
      = [ .send (didOpenMsg path content),
          .send (reqMsg ((st.request_id + 1 : Nat) : Int) (opMethod op)
            (opParams op path line col)) ] := by
  cases op <;>
    simp [opRun, opMethod, opParams, get_definition, get_references, get_hover,
      rename_symbol, get_completion, get_declaration, get_type_definition,
      get_implementation, get_signature_help, get_document_highlight, open_file, hfs, request]

/-- Claim C10, witness for the amended theorem. -/
theorem c10_witness :
    oneFileFs pathA = some contentA
    ∧ (opRun .definitionOp oneFileFs initState pathA 5 3).1
        = [ .send (didOpenMsg pathA contentA),
            .send (reqMsg 1 sDefinitionM (posParams pathA 5 3)) ] := by
  refine ⟨by decide, ?_⟩
  have h := c10_open_before_request .definitionOp oneFileFs initState pathA contentA 5 3 (by decide)
  simpa [opMethod, opParams, initState] using h
